import Mathlib

/-!
Verification development for the ipgrep scanning core.

The Rust sources are shallowly embedded:

* `src/netlike.rs` — the lexical scanner `NetLikeScanner` (`nextImpl`,
  `tryIpv4`, `tryIpv6`, `tryIpv4OrIpv6`, `maybeNetmask`, the `seek_to_*`
  helpers).
* `src/scanner.rs` — the prefilters and `NetCandidateScanner::find_all`.
* `src/net.rs` — the `Net` wrapper and `TryFrom` parsing (the `IpAddr`,
  `Ipv4Addr`, `Ipv6Addr` and `ipnet::IpNet` behaviour of the external
  libraries is modelled to the same contract: strict dotted-quad parsing
  without leading zeros, RFC-style `::` compression for IPv6 text, netmask
  to prefix-length conversion for contiguous masks).
* `src/matching.rs` — `MatchMode::matches` and `MatchMode::overlaps`.

Conventions of the embedding:

* a byte buffer is a `List Nat` of byte values; `byteAt buf i` is Rust's
  `buf[i]` at positions that are proven (by the surrounding control flow)
  to be in bounds.  The single place where `netlike.rs` can index out of
  bounds (the `bytes[self.pos - 1]` delimiter recomputation in the retry
  arms of `next_impl`) is modelled explicitly: the out-of-bounds case
  produces `ScanStep.crash`, the embedding of a Rust panic.
* every Rust `while` loop becomes a structurally recursive function with
  an explicit `fuel` argument; the fuel is instantiated so that it never
  reaches zero before the loop's own exit condition (each loop advances
  its index by at least one per iteration and is bounded by the buffer
  length), and the fuel-zero arm coincides with the loop-exit arm.
* functions that mutate `self.pos` return the new position; scan results
  keep the `Option (Nat × Nat)` shape of the Rust return values.
-/

/-! ## Byte classification helpers (ASCII) -/

def isDigitB (b : Nat) : Bool := 48 ≤ b && b ≤ 57

def isHexLetterB (b : Nat) : Bool := (97 ≤ b && b ≤ 102) || (65 ≤ b && b ≤ 70)

def isHexB (b : Nat) : Bool := isDigitB b || isHexLetterB b

def isAlphaB (b : Nat) : Bool := (97 ≤ b && b ≤ 122) || (65 ≤ b && b ≤ 90)

/-- Rust `b'g'..=b'z' | b'G'..=b'Z'`: an ASCII letter outside the hex range. -/
def isNonHexLetterB (b : Nat) : Bool := (103 ≤ b && b ≤ 122) || (71 ≤ b && b ≤ 90)

def colonB : Nat := 58
def dotB : Nat := 46
def slashB : Nat := 47

/-- `bytes[i]` at an index the Rust control flow keeps in bounds. -/
def byteAt (buf : List Nat) (i : Nat) : Nat := buf.getD i 0

/-- Turns a list of characters into the byte buffer of their ASCII codes. -/
def bytesOf (cs : List Char) : List Nat := cs.map Char.toNat

/-! ## `src/netlike.rs` — the lexical scanner

`NetLikeScanner` owns a buffer, a cursor `pos` and a restriction flag; the
buffer and the restriction never change, so the embedding passes them as
plain parameters and threads only `pos`. -/

/-- `NetLikeRestriction` from `netlike.rs`. -/
inductive NetLikeRestriction where
  | ipsAndCidrs : NetLikeRestriction
  | alsoOldNets : NetLikeRestriction
deriving DecidableEq

/-- Characters that may start an IPv4/IPv6 run: `b"0123456789abcdefABCDEF:"`.
`memchr(b, IPV46_START)` is the index of `b` in that constant. -/
def ipv46Idx (b : Nat) : Option Nat :=
  [48, 49, 50, 51, 52, 53, 54, 55, 56, 57,
   97, 98, 99, 100, 101, 102,
   65, 66, 67, 68, 69, 70, 58].indexOf? b

/-- The byte classes of the `matches!` guards in `next_impl`
(`b'0'..=b'9' | b'a'..=b'f' | b'A'..=b'F' | b':'`). -/
def isV6StartB (b : Nat) : Bool := isHexB b || (b == colonB)

/-- Result of one `next_impl` call: either the Rust return value
(`Option` span) together with the new cursor, or a panic. -/
inductive ScanStep where
  | crash : ScanStep
  | next : Option (Nat × Nat) → Nat → ScanStep
deriving DecidableEq

/-- `seek_to_non_digit` / `seek_to_non_digit_period` / `seek_to_non_letter`:
advance `i` while `p` holds, then set `pos = min(len, i + 1)`.  All three
return `None` in Rust; the embedding returns just the new `pos`. -/
def seekWhile (p : Nat → Bool) (buf : List Nat) (i : Nat) (fuel : Nat) : Nat :=
  match fuel with
  | 0 => min buf.length (i + 1)
  | fuel + 1 =>
    if i < buf.length then
      if p (byteAt buf i) then seekWhile p buf (i + 1) fuel
      else min buf.length (i + 1)
    else min buf.length (i + 1)

def seekToNonDigit (buf : List Nat) (i : Nat) : Nat :=
  seekWhile isDigitB buf i (buf.length + 1)

def seekToNonDigitPeriod (buf : List Nat) (i : Nat) : Nat :=
  seekWhile (fun b => isDigitB b || b == dotB) buf i (buf.length + 1)

def seekToNonLetter (buf : List Nat) (i : Nat) : Nat :=
  seekWhile isAlphaB buf i (buf.length + 1)

/-- First loop of `maybe_netmask`: count up to four digits starting at `i`;
returns the final `i` and `numdigits` (`numdigits > 3` breaks right after
the increment). -/
def mmCountDigits (buf : List Nat) (i numdigits : Nat) (fuel : Nat) : Nat × Nat :=
  match fuel with
  | 0 => (i, numdigits)
  | fuel + 1 =>
    if i < buf.length then
      if isDigitB (byteAt buf i) then
        if numdigits + 1 > 3 then (i + 1, numdigits + 1)
        else mmCountDigits buf (i + 1) (numdigits + 1) fuel
      else (i, numdigits)
    else (i, numdigits)

/-- The `AlsoOldNets` slurp loop of `maybe_netmask`: consumes digits and
dots, tracking `dots`, `numdigits` and `valid`; returns the final `i` and
`valid`. -/
def mmOldNet (buf : List Nat) (i dots numdigits : Nat) (valid : Bool)
    (fuel : Nat) : Nat × Bool :=
  match fuel with
  | 0 => (i, valid)
  | fuel + 1 =>
    if i < buf.length then
      let b := byteAt buf i
      if isDigitB b then
        mmOldNet buf (i + 1) dots (numdigits + 1)
          (if dots == 3 then true else valid) fuel
      else if b == dotB then
        if numdigits > 3 then mmOldNet buf (i + 1) dots numdigits false fuel
        else if numdigits == 0 then (i, valid)
        else mmOldNet buf (i + 1) (dots + 1) 0 valid fuel
      else (i, valid)
    else (i, valid)

/-- `maybe_netmask(end, restrict)`: called right after a `/`; `start` is
`self.pos` (the start of the candidate), `endIdx` the position just past
the `/`.  Always returns `Some` span plus the new cursor. -/
def maybeNetmask (buf : List Nat) (start endIdx : Nat)
    (restrict : NetLikeRestriction) : Option (Nat × Nat) × Nat :=
  let (i, numdigits) := mmCountDigits buf endIdx 0 (buf.length + 1)
  if numdigits == 0 || numdigits > 3 then
    (some (start, endIdx - 1), endIdx)
  else if i + 1 < buf.length && byteAt buf i == dotB
      && isDigitB (byteAt buf (i + 1)) then
    match restrict with
    | .ipsAndCidrs => (some (start, endIdx - 1), endIdx)
    | .alsoOldNets =>
      let (j, valid) := mmOldNet buf (i + 1) 1 0 false (buf.length + 1)
      if valid then (some (start, j), j + 1)
      else (some (start, endIdx - 1), j + 1)
  else
    (some (start, i), i + 1)

/-- The code after the fourth-digit loop in `try_ipv4` (the "easy case"
and the legal-ending `match`). -/
def v4Finish (buf : List Nat) (restrict : NetLikeRestriction)
    (start numsize endIdx : Nat) : Option (Nat × Nat) × Nat :=
  if numsize == 0 then (none, min buf.length (endIdx + 1))
  else if endIdx == buf.length then (some (start, endIdx), endIdx)
  else
    let b := byteAt buf endIdx
    if b == slashB then maybeNetmask buf start (endIdx + 1) restrict
    else if isAlphaB b then (none, seekToNonLetter buf (endIdx + 1))
    else if b == dotB then
      if endIdx + 1 < buf.length && isDigitB (byteAt buf (endIdx + 1)) then
        (none, seekToNonDigitPeriod buf (endIdx + 1))
      else (some (start, endIdx), endIdx + 1)
    else (some (start, endIdx), endIdx + 1)

/-- After the fourth group of `try_ipv4`: the trailing digit loop and the
legal-ending checks. -/
def v4Fourth (buf : List Nat) (restrict : NetLikeRestriction)
    (start numsize endIdx : Nat) (fuel : Nat) : Option (Nat × Nat) × Nat :=
  match fuel with
  | 0 => v4Finish buf restrict start numsize endIdx
  | fuel + 1 =>
    if endIdx < buf.length then
      if isDigitB (byteAt buf endIdx) then
        if numsize + 1 > 3 then (none, seekToNonDigit buf (endIdx + 1))
        else v4Fourth buf restrict start (numsize + 1) (endIdx + 1) fuel
      else v4Finish buf restrict start numsize endIdx
    else v4Finish buf restrict start numsize endIdx

/-- Main loop of `try_ipv4`: consumes groups of digits separated by dots
until the third dot, tracking `dots` and `numsize`. -/
def v4Loop (buf : List Nat) (restrict : NetLikeRestriction)
    (start dots numsize endIdx : Nat) (fuel : Nat) : Option (Nat × Nat) × Nat :=
  match fuel with
  | 0 => v4Fourth buf restrict start numsize endIdx (buf.length + 1)
  | fuel + 1 =>
    if endIdx < buf.length then
      let b := byteAt buf endIdx
      if isDigitB b then
        if numsize + 1 > 3 then (none, seekToNonDigit buf (endIdx + 1))
        else v4Loop buf restrict start dots (numsize + 1) (endIdx + 1) fuel
      else if b == dotB then
        if numsize == 0 then (none, endIdx)
        else if dots + 1 == 3 then
          v4Fourth buf restrict start 0 (endIdx + 1) (buf.length + 1)
        else v4Loop buf restrict start (dots + 1) 0 (endIdx + 1) fuel
      else (none, endIdx)
    else v4Fourth buf restrict start numsize endIdx (buf.length + 1)

/-- `try_ipv4`: the cursor sits on a digit and at least 7 bytes remain. -/
def tryIpv4 (buf : List Nat) (restrict : NetLikeRestriction)
    (start : Nat) : Option (Nat × Nat) × Nat :=
  v4Loop buf restrict start 0 1 (start + 1) (buf.length + 1)

/-- The fixed-offset IPv4-mapped check of `try_ipv6`: the seven bytes at
the start of the run spell `::ffff:` (the `f`s case-insensitively). -/
def isMappedStart (buf : List Nat) (start : Nat) : Bool :=
  byteAt buf start == colonB && byteAt buf (start + 1) == colonB
    && (byteAt buf (start + 2) == 102 || byteAt buf (start + 2) == 70)
    && (byteAt buf (start + 3) == 102 || byteAt buf (start + 3) == 70)
    && (byteAt buf (start + 4) == 102 || byteAt buf (start + 4) == 70)
    && (byteAt buf (start + 5) == 102 || byteAt buf (start + 5) == 70)
    && byteAt buf (start + 6) == colonB

/-- The loop of `try_ipv6`, consuming hex digits, colons, and conditionally
dots; `start` is `self.pos` on entry and never changes. -/
def v6Loop (buf : List Nat) (start endIdx colons : Nat)
    (fuel : Nat) : Option (Nat × Nat) × Nat :=
  match fuel with
  | 0 => (if colons ≥ 2 then some (start, endIdx) else none, endIdx + 1)
  | fuel + 1 =>
    if endIdx < buf.length then
      let b := byteAt buf endIdx
      if isHexB b then v6Loop buf start (endIdx + 1) colons fuel
      else if b == colonB then v6Loop buf start (endIdx + 1) (colons + 1) fuel
      else if b == dotB then
        if start + 7 < buf.length && !isMappedStart buf start then
          (some (start, endIdx), endIdx + 1)
        else v6Loop buf start (endIdx + 1) colons fuel
      else if b == slashB then
        if colons ≥ 2 then
          maybeNetmask buf start (endIdx + 1) .ipsAndCidrs
        else (none, endIdx + 1)
      else if isNonHexLetterB b then
        (none, endIdx + 1)
      else
        (if colons ≥ 2 then some (start, endIdx) else none, endIdx + 1)
    else (if colons ≥ 2 then some (start, endIdx) else none, endIdx + 1)

/-- `try_ipv6`.  The fuel `len + 1 - start` is exact: the loop advances
`endIdx` by one per iteration, so the fuel at `endIdx` is always
`len + 1 - endIdx`, which stays positive until the loop's own exit. -/
def tryIpv6 (buf : List Nat) (start : Nat) : Option (Nat × Nat) × Nat :=
  v6Loop buf start start 0 (buf.length + 1 - start)

/-- `try_ipv4_or_ipv6`: the cursor sits on a digit with at least 7 bytes
remaining; peeks up to three bytes ahead to pick a path. -/
def tryIpv4OrIpv6 (buf : List Nat) (restrict : NetLikeRestriction)
    (pos : Nat) : Option (Nat × Nat) × Nat :=
  let b1 := byteAt buf (pos + 1)
  if isDigitB b1 then
    let b2 := byteAt buf (pos + 2)
    if isDigitB b2 then
      let b3 := byteAt buf (pos + 3)
      if isHexB b3 || b3 == colonB then tryIpv6 buf pos
      else if b3 == dotB then tryIpv4 buf restrict pos
      else (none, pos + 4)
    else if isHexLetterB b2 || b2 == colonB then tryIpv6 buf pos
    else if b2 == dotB then tryIpv4 buf restrict pos
    else (none, pos + 3)
  else if isHexLetterB b1 || b1 == colonB then tryIpv6 buf pos
  else if b1 == dotB then tryIpv4 buf restrict pos
  else (none, pos + 2)

/-- The `leftover < 7` branch of `next_impl`: scan byte-by-byte for an
IPv6-shaped start and return `try_ipv6`'s answer directly. -/
def shortScan (buf : List Nat) (pos : Nat) (fuel : Nat) : ScanStep :=
  match fuel with
  | 0 => .next none pos
  | fuel + 1 =>
    if pos < buf.length then
      if isV6StartB (byteAt buf pos) then
        let (r, p) := tryIpv6 buf pos
        .next r p
      else shortScan buf (pos + 1) fuel
    else .next none pos

/-- The trailing `leftover < 7` loop at the bottom of `next_impl`
(rejections fall through to `pos += 1` instead of returning). -/
def tailScan (buf : List Nat) (pos : Nat) (fuel : Nat) : ScanStep :=
  match fuel with
  | 0 => .next none pos
  | fuel + 1 =>
    if pos < buf.length then
      if isV6StartB (byteAt buf pos) then
        match tryIpv6 buf pos with
        | (some r, p) => .next (some r) p
        | (none, p) => tailScan buf (p + 1) fuel
      else tailScan buf (pos + 1) fuel
    else .next none pos

/-- The main loop of `next_impl` (`while self.pos < len_minus_6`).  The
retry arms recompute `delim_is_colon` from `bytes[self.pos - 1]`; when the
new cursor has run past the buffer (`pos - 1 ≥ len`) that Rust indexing
panics, modelled as `ScanStep.crash`. -/
def mainScan (buf : List Nat) (restrict : NetLikeRestriction)
    (pos : Nat) (delim : Bool) (fuel : Nat) : ScanStep :=
  match fuel with
  | 0 => tailScan buf pos (buf.length + 1)
  | fuel + 1 =>
    if pos < buf.length - 6 then
      let b := byteAt buf pos
      if !delim then
        match ipv46Idx b with
        | some idx =>
          if idx < 10 then
            match tryIpv4OrIpv6 buf restrict pos with
            | (some r, p) => .next (some r) p
            | (none, p) =>
              if p - 1 < buf.length then
                mainScan buf restrict p (byteAt buf (p - 1) == colonB) fuel
              else .crash
          else if idx < 22 || byteAt buf (pos + 1) == colonB then
            match tryIpv6 buf pos with
            | (some r, p) => .next (some r) p
            | (none, p) =>
              if p - 1 < buf.length then
                mainScan buf restrict p (byteAt buf (p - 1) == colonB) fuel
              else .crash
          else mainScan buf restrict (pos + 1) delim fuel
        | none => mainScan buf restrict (pos + 1) delim fuel
      else if isDigitB b then
        match tryIpv4 buf restrict pos with
        | (some r, p) => .next (some r) p
        | (none, p) =>
          if p - 1 < buf.length then
            mainScan buf restrict p (byteAt buf (p - 1) == colonB) fuel
          else .crash
      else mainScan buf restrict (pos + 1) false fuel
    else tailScan buf pos (buf.length + 1)

/-- `NetLikeScanner::next_impl` (also `Iterator::next`). -/
def nextImpl (buf : List Nat) (restrict : NetLikeRestriction)
    (pos : Nat) : ScanStep :=
  if buf.length - pos < 7 then
    shortScan buf pos (buf.length + 1 - pos)
  else
    let delim := if pos > 0 then byteAt buf (pos - 1) == colonB else false
    mainScan buf restrict pos delim (buf.length + 2)

/-- Driving the iterator to completion, collecting the yielded spans in
order; `none` models a panic during the iteration. -/
def scanAll (buf : List Nat) (restrict : NetLikeRestriction) :
    Nat → Nat → List (Nat × Nat) → Option (List (Nat × Nat))
  | 0, _, acc => some acc.reverse
  | fuel + 1, pos, acc =>
    match nextImpl buf restrict pos with
    | .crash => none
    | .next none _ => some acc.reverse
    | .next (some sp) p => scanAll buf restrict fuel p (sp :: acc)

/-- All spans of `NetLikeScanner::new(buf)` (plus `with_oldnet` when
`restrict` says so), or `none` if the iteration panics. -/
def netLikeSpans (buf : List Nat) (restrict : NetLikeRestriction) :
    Option (List (Nat × Nat)) :=
  scanAll buf restrict (buf.length + 1) 0 []

/-! ## `src/net.rs` — Network Values

`Net` wraps `ipnet::IpNet`: an address family, a base address and a prefix
length.  Addresses are modelled as `Nat` below `2^32` / `2^128`; masking is
done with division and multiplication by powers of two.  The text parsing
delegated by `net.rs` to `std::net` and `ipnet` is modelled to their
documented contract: strict dotted-quad IPv4 (1–3 digits per octet, no
leading zeros, values `≤ 255`), RFC-style IPv6 with at most one `::`, hex
groups of at most 4 digits and an optional trailing dotted quad, numeric
prefix lengths parsed as `u8` (leading zeros allowed) and bounded by the
family's maximum, and dotted netmasks accepted only when contiguous. -/

inductive Net where
  | v4 (addr pfx : Nat) : Net
  | v6 (addr pfx : Nat) : Net
deriving DecidableEq

/-- The `IpAddr` of the standard library: a family-tagged address. -/
inductive IpVal where
  | v4 (a : Nat) : IpVal
  | v6 (a : Nat) : IpVal
deriving DecidableEq

def Net.width : Net → Nat
  | .v4 _ _ => 32
  | .v6 _ _ => 128

def Net.addr : Net → Nat
  | .v4 a _ => a
  | .v6 a _ => a

def Net.pfx : Net → Nat
  | .v4 _ p => p
  | .v6 _ p => p

/-- `IpNet::network()`: the address with host bits cleared. -/
def Net.network (n : Net) : Nat :=
  n.addr / 2 ^ (n.width - n.pfx) * 2 ^ (n.width - n.pfx)

/-- `IpNet::broadcast()`: the address with host bits set. -/
def Net.broadcast (n : Net) : Nat :=
  n.network + (2 ^ (n.width - n.pfx) - 1)

/-- `Net::has_host_bits`: `self.0.network() != self.0.addr()`. -/
def Net.hasHostBits (n : Net) : Bool := decide (n.network ≠ n.addr)

def Net.isIpv4 : Net → Bool
  | .v4 _ _ => true
  | .v6 _ _ => false

def Net.isIpv6 : Net → Bool
  | .v4 _ _ => false
  | .v6 _ _ => true

/-- `Net::as_ip`: prefix forced to the family maximum, address unchanged. -/
def Net.asIp : Net → Net
  | .v4 a _ => .v4 a 32
  | .v6 a _ => .v6 a 128

/-- `Net::as_network`: address masked to the network base, prefix kept. -/
def Net.asNetwork : Net → Net
  | .v4 a p => .v4 (Net.network (.v4 a p)) p
  | .v6 a p => .v6 (Net.network (.v6 a p)) p

def Net.networkIp : Net → IpVal
  | .v4 a p => .v4 (Net.network (.v4 a p))
  | .v6 a p => .v6 (Net.network (.v6 a p))

def Net.broadcastIp : Net → IpVal
  | .v4 a p => .v4 (Net.broadcast (.v4 a p))
  | .v6 a p => .v6 (Net.broadcast (.v6 a p))

/-- `IpNet::contains(&IpAddr)`: address within `[network, broadcast]`,
`false` for mixed families. -/
def Net.containsAddr (n : Net) (x : IpVal) : Bool :=
  match n, x with
  | .v4 _ _, .v4 a => decide (n.network ≤ a ∧ a ≤ n.broadcast)
  | .v6 _ _, .v6 a => decide (n.network ≤ a ∧ a ≤ n.broadcast)
  | _, _ => false

/-! ### Text parsing (the `std`/`ipnet` behaviour used by `net.rs`) -/

/-- `str::split_once(sep)`: split at the first occurrence. -/
def splitOnceB (sep : Nat) : List Nat → Option (List Nat × List Nat)
  | [] => none
  | c :: rest =>
    if c = sep then some ([], rest)
    else (splitOnceB sep rest).map (fun q => (c :: q.1, q.2))

/-- Split on every occurrence of `sep` (like `str::split`); never empty. -/
def splitSepB (sep : Nat) : List Nat → List (List Nat)
  | [] => [[]]
  | c :: rest =>
    if c = sep then [] :: splitSepB sep rest
    else
      match splitSepB sep rest with
      | [] => [[c]]
      | t :: ts => (c :: t) :: ts

/-- Inverse of `splitSepB`: tokens joined by single separators. -/
def joinSep (sep : Nat) : List (List Nat) → List Nat
  | [] => []
  | [t] => t
  | t :: ts => t ++ sep :: joinSep sep ts

/-- Value of a decimal digit string. -/
def decVal (tok : List Nat) : Nat := tok.foldl (fun acc b => acc * 10 + (b - 48)) 0

def hexDigitVal (b : Nat) : Nat :=
  if isDigitB b then b - 48
  else if 97 ≤ b then b - 87
  else b - 55

/-- Value of a hex digit string. -/
def hexVal (tok : List Nat) : Nat := tok.foldl (fun acc b => acc * 16 + hexDigitVal b) 0

/-- One octet of `Ipv4Addr::from_str`: 1–3 digits (no leading zero unless
the octet is exactly `0`), value at most 255. -/
def parseOctet (tok : List Nat) : Option Nat :=
  if tok ≠ [] ∧ tok.all isDigitB = true ∧ (tok.length = 1 ∨ tok.headD 0 ≠ 48)
      ∧ decVal tok ≤ 255 then
    some (decVal tok)
  else none

/-- `Ipv4Addr::from_str`: exactly four octets separated by dots. -/
def parseIpv4 (s : List Nat) : Option Nat :=
  match splitSepB dotB s with
  | [t1, t2, t3, t4] =>
    match parseOctet t1, parseOctet t2, parseOctet t3, parseOctet t4 with
    | some a, some b, some c, some d =>
      some (((a * 256 + b) * 256 + c) * 256 + d)
    | _, _, _, _ => none
  | _ => none

/-- Split at the first occurrence of `::`. -/
def findDC : List Nat → Option (List Nat × List Nat)
  | [] => none
  | [_] => none
  | c1 :: c2 :: rest =>
    if c1 = colonB ∧ c2 = colonB then some ([], rest)
    else (findDC (c2 :: rest)).map (fun q => (c1 :: q.1, q.2))

/-- One hex group of `Ipv6Addr::from_str`: 1–4 hex digits (leading zeros
allowed). -/
def parseHexGroup (tok : List Nat) : Option Nat :=
  if tok ≠ [] ∧ tok.all isHexB = true ∧ tok.length ≤ 4 then some (hexVal tok)
  else none

/-- Parse a colon-separated token list into 16-bit groups; when
`lastMayBeV4` is set the final token may be a dotted quad (two groups). -/
def parseV6Groups (lastMayBeV4 : Bool) : List (List Nat) → Option (List Nat)
  | [] => some []
  | [t] =>
    if lastMayBeV4 ∧ t.contains dotB then
      (parseIpv4 t).map (fun a => [a / 65536, a % 65536])
    else (parseHexGroup t).map (fun g => [g])
  | t :: ts =>
    match parseHexGroup t, parseV6Groups lastMayBeV4 ts with
    | some g, some gs => some (g :: gs)
    | _, _ => none

/-- Big-endian assembly of 16-bit groups. -/
def segsToNat (gs : List Nat) : Nat := gs.foldl (fun acc g => acc * 65536 + g) 0

/-- `Ipv6Addr::from_str`: with a `::` the groups on both sides (at most 7
in total) surround a zero run; without one, exactly 8 groups.  A dotted
quad may stand in final position for two groups. -/
def parseIpv6 (s : List Nat) : Option Nat :=
  match findDC s with
  | some (l, r) =>
    let lToks := if l.isEmpty then [] else splitSepB colonB l
    let rToks := if r.isEmpty then [] else splitSepB colonB r
    match parseV6Groups false lToks, parseV6Groups true rToks with
    | some lg, some rg =>
      if lg.length + rg.length ≤ 7 then
        some (segsToNat (lg ++ List.replicate (8 - lg.length - rg.length) 0 ++ rg))
      else none
    | _, _ => none
  | none =>
    match parseV6Groups true (splitSepB colonB s) with
    | some gs => if gs.length = 8 then some (segsToNat gs) else none
    | none => none

/-- `IpAddr::from_str`: IPv4 first, then IPv6. -/
def parseIpAddr (s : List Nat) : Option IpVal :=
  match parseIpv4 s with
  | some a => some (.v4 a)
  | none => (parseIpv6 s).map .v6

/-- `u8::from_str` on an all-digit prefix-length token (leading zeros
allowed, overflow rejected). -/
def parsePrefixLen (tok : List Nat) : Option Nat :=
  if tok ≠ [] ∧ tok.all isDigitB = true ∧ decVal tok ≤ 255 then some (decVal tok)
  else none

/-- `ipv4_mask_to_prefix` / `ipv6_mask_to_prefix`: a contiguous mask of
width `w` becomes its prefix length, anything else is an error. -/
def maskToPfx (w mask : Nat) : Option Nat :=
  (List.range (w + 1)).find? (fun p => mask == 2 ^ w - 2 ^ (w - p))

/-- `IpNet::from_str`: `addr/prefix-length`, IPv4 first, then IPv6. -/
def ipNetFromStr (s : List Nat) : Option Net :=
  match splitOnceB slashB s with
  | none => none
  | some (a, p) =>
    match parseIpv4 a, parsePrefixLen p with
    | some addr, some pl => if pl ≤ 32 then some (.v4 addr pl) else none
    | _, _ =>
      match parseIpv6 a, parsePrefixLen p with
      | some addr, some pl => if pl ≤ 128 then some (.v6 addr pl) else none
      | _, _ => none

inductive NetErr where
  | invalidUtf8 : NetErr
  | notAnIp (s : List Nat) : NetErr
  | hostBitsSet (s : List Nat) : NetErr
deriving DecidableEq

deriving instance DecidableEq for Except

/-- `impl TryFrom<&str> for Net` (`net.rs` lines 69–94).  With a slash and
an all-digit mask part the whole string must parse as a CIDR; with a
non-digit mask part both sides must be IPv4 and the mask contiguous
(`IpNet::with_netmask`); without a slash the string must be a plain
address, paired with the family's maximum prefix length. -/
def netTryFrom (s : List Nat) : Except NetErr Net :=
  match splitOnceB slashB s with
  | some (ipPart, maskPart) =>
    if maskPart.all isDigitB then
      match ipNetFromStr s with
      | some n => .ok n
      | none => .error (.notAnIp s)
    else
      match parseIpv4 ipPart, parseIpv4 maskPart with
      | some ip, some mask =>
        match maskToPfx 32 mask with
        | some p => .ok (.v4 ip p)
        | none => .error (.notAnIp s)
      | _, _ => .error (.notAnIp s)
  | none =>
    match parseIpAddr s with
    | some (.v4 a) => .ok (.v4 a 32)
    | some (.v6 a) => .ok (.v6 a 128)
    | none => .error (.notAnIp s)

/-! ### Text formatting (`Display for Net` via `ipnet` and `std`) -/

/-- Decimal text of `n` (`Display` for integers): the decimal digits of
`n`, most significant first. -/
def decToBytes (n : Nat) : List Nat :=
  if n = 0 then [48] else ((Nat.digits 10 n).reverse).map (fun d => d + 48)

def hexDigitChar (d : Nat) : Nat := if d < 10 then d + 48 else d + 87

/-- Lowercase hex text of `n` (no leading zeros). -/
def hexToBytes (n : Nat) : List Nat :=
  if n = 0 then [48] else ((Nat.digits 16 n).reverse).map hexDigitChar

/-- `Display for Ipv4Addr`: dotted decimal octets. -/
def v4ToBytes (a : Nat) : List Nat :=
  joinSep dotB
    [decToBytes (a / 16777216 % 256), decToBytes (a / 65536 % 256),
     decToBytes (a / 256 % 256), decToBytes (a % 256)]

/-- The eight 16-bit groups of an IPv6 address value. -/
def segsOfV6 (a : Nat) : List Nat :=
  [a / 2 ^ 112 % 65536, a / 2 ^ 96 % 65536, a / 2 ^ 80 % 65536,
   a / 2 ^ 64 % 65536, a / 2 ^ 48 % 65536, a / 2 ^ 32 % 65536,
   a / 2 ^ 16 % 65536, a % 65536]

/-- Length of the zero run beginning at index `i`. -/
def zeroRunLen (segs : List Nat) (i : Nat) : Nat :=
  ((segs.drop i).takeWhile (fun g => g == 0)).length

/-- Earliest-longest run of at least two zero groups, if any (the run that
`Display for Ipv6Addr` abbreviates as `::`). -/
def bestZeroRun (segs : List Nat) : Option (Nat × Nat) :=
  (List.range segs.length).foldl
    (fun best i =>
      let L := zeroRunLen segs i
      match best with
      | none => if L ≥ 2 then some (i, L) else none
      | some q => if L > q.2 then some (i, L) else best)
    none

/-- `Display for Ipv6Addr`: the IPv4-mapped special case prints a dotted
quad, otherwise the longest zero run (of length at least 2) is compressed
to `::`. -/
def v6ToBytes (a : Nat) : List Nat :=
  let segs := segsOfV6 a
  if segs.take 6 = [0, 0, 0, 0, 0, 65535] then
    colonB :: colonB :: bytesOf ['f', 'f', 'f', 'f'] ++ colonB :: v4ToBytes (a % 4294967296)
  else
    match bestZeroRun segs with
    | some q =>
      joinSep colonB ((segs.take q.1).map hexToBytes)
        ++ colonB :: colonB :: joinSep colonB ((segs.drop (q.1 + q.2)).map hexToBytes)
    | none => joinSep colonB (segs.map hexToBytes)

/-- `Display for Net` via `Display for IpNet`: `addr/prefix-length`. -/
def netDisplay : Net → List Nat
  | .v4 a p => v4ToBytes a ++ slashB :: decToBytes p
  | .v6 a p => v6ToBytes a ++ slashB :: decToBytes p

/-! ## `src/matching.rs` — the Match Algebra -/

structure AcceptSet where
  ip : Bool
  net : Bool
  oldnet : Bool
  iface : Bool
deriving DecidableEq

inductive InterfaceMode where
  | treatAsIp : InterfaceMode
  | treatAsNetwork : InterfaceMode
  | complainAndSkip : InterfaceMode
deriving DecidableEq

inductive MatchMode where
  | equals : MatchMode
  | contains : MatchMode
  | within : MatchMode
  | overlaps : MatchMode
deriving DecidableEq

/-- `MatchMode::overlaps`: within one family, either operand contains the
other's network base; mixed families are `false`. -/
def MatchMode.overlapsFn (a b : Net) : Bool :=
  match a, b with
  | .v4 _ _, .v4 _ _ => a.containsAddr b.networkIp || b.containsAddr a.networkIp
  | .v6 _ _, .v6 _ _ => a.containsAddr b.networkIp || b.containsAddr a.networkIp
  | _, _ => false

/-- `MatchMode::matches(haystack, needle)`.  The `assert!` calls of the
`Contains`/`Within` arms are modelled by `none` (a panic); a returned
boolean is `some`. -/
def MatchMode.matches : MatchMode → Net → Net → Option Bool
  | .equals, haystack, needle => some (decide (needle = haystack))
  | .contains, haystack, needle =>
    if needle.hasHostBits then none
    else some (haystack.containsAddr needle.networkIp
      && haystack.containsAddr needle.broadcastIp)
  | .within, haystack, needle =>
    if haystack.hasHostBits then none
    else some (needle.containsAddr haystack.networkIp
      && needle.containsAddr haystack.broadcastIp)
  | .overlaps, haystack, needle => some (MatchMode.overlapsFn haystack needle)

/-! ## `src/scanner.rs` — prefilters and `NetCandidateScanner::find_all` -/

/-- `prefilter_could_be_ip`: a digit-dot-digit or a colon followed by a hex
digit or colon.  `memchr2_iter` visits exactly the `.`/`:` positions; the
embedding tests every position, other bytes contributing `false`. -/
def prefilterCouldBeIp (line : List Nat) : Bool :=
  if line.isEmpty then false
  else
    (List.range line.length).any fun pos =>
      let b := byteAt line pos
      if b == dotB then
        decide (pos < line.length - 1) && isDigitB (byteAt line (pos + 1))
          && decide (pos > 0) && isDigitB (byteAt line (pos - 1))
      else if b == colonB then
        decide (pos < line.length - 1)
          && (isHexB (byteAt line (pos + 1)) || byteAt line (pos + 1) == colonB)
      else false

/-- `prefilter_could_be_ip4`. -/
def prefilterCouldBeIp4 (line : List Nat) : Bool :=
  if line.isEmpty then false
  else
    (List.range line.length).any fun pos =>
      byteAt line pos == dotB
        && decide (pos < line.length - 1) && isDigitB (byteAt line (pos + 1))
        && decide (pos > 0) && isDigitB (byteAt line (pos - 1))

/-- `prefilter_could_be_ip6`. -/
def prefilterCouldBeIp6 (line : List Nat) : Bool :=
  if line.isEmpty then false
  else
    (List.range line.length).any fun pos =>
      byteAt line pos == colonB
        && decide (pos < line.length - 1)
        && (isHexB (byteAt line (pos + 1)) || byteAt line (pos + 1) == colonB)

/-- The configuration of `NetCandidateScanner`. -/
structure NetCandidateScanner where
  includeIpv4 : Bool
  includeIpv6 : Bool
  accept : AcceptSet
  interfaceMode : InterfaceMode
deriving DecidableEq

/-- The body of the `for (start, end)` loop of `find_all`: policy
restriction, parse, interface handling and family filter for one span;
`none` is the loop's `continue`.  The parsed slice may be truncated, the
recorded range never is. -/
def processSpan (cfg : NetCandidateScanner) (buf : List Nat)
    (sp : Nat × Nat) : Option ((Nat × Nat) × Net) :=
  let slice0 := (buf.drop sp.1).take (sp.2 - sp.1)
  let nonet := !(cfg.accept.net || cfg.accept.oldnet || cfg.accept.iface)
  let sliceOpt : Option (List Nat) :=
    match slice0.findIdx? (fun b => b == slashB) with
    | some slashPos =>
      if nonet then some (slice0.take slashPos)
      else if cfg.accept.oldnet && !cfg.accept.net then
        if !(slice0.drop slashPos).contains dotB then none else some slice0
      else some slice0
    | none => if !cfg.accept.ip then none else some slice0
  match sliceOpt with
  | none => none
  | some slice =>
    match netTryFrom slice with
    | .error _ => none
    | .ok net0 =>
      let netOpt : Option Net :=
        if net0.hasHostBits then
          if !cfg.accept.iface then none
          else
            match cfg.interfaceMode with
            | .treatAsIp => some net0.asIp
            | .treatAsNetwork => some net0.asNetwork
            | .complainAndSkip => none
        else some net0
      match netOpt with
      | none => none
      | some net1 =>
        if !cfg.includeIpv6 && net1.isIpv6 then none
        else if !cfg.includeIpv4 && net1.isIpv4 then none
        else some (sp, net1)

/-- `NetCandidateScanner::find_all` with the prefilter check in place;
`none` models a panic (the scanner's out-of-bounds index, or the
`unreachable!` when both families are excluded). -/
def findAll (cfg : NetCandidateScanner) (buf : List Nat) :
    Option (List ((Nat × Nat) × Net)) :=
  match cfg.includeIpv4, cfg.includeIpv6 with
  | false, false => none
  | _, _ =>
    let pre :=
      match cfg.includeIpv4, cfg.includeIpv6 with
      | true, true => prefilterCouldBeIp buf
      | true, false => prefilterCouldBeIp4 buf
      | false, true => prefilterCouldBeIp6 buf
      | false, false => true
    if !pre then some []
    else
      let restrict :=
        if cfg.accept.oldnet then NetLikeRestriction.alsoOldNets
        else NetLikeRestriction.ipsAndCidrs
      (netLikeSpans buf restrict).map (fun l => l.filterMap (processSpan cfg buf))

/-- `find_all` with the prefilter check removed — the hypothetical variant
the spec declares equivalent ("disabling it must not change scan
results"). -/
def findAllNoPrefilter (cfg : NetCandidateScanner) (buf : List Nat) :
    Option (List ((Nat × Nat) × Net)) :=
  match cfg.includeIpv4, cfg.includeIpv6 with
  | false, false => none
  | _, _ =>
    let restrict :=
      if cfg.accept.oldnet then NetLikeRestriction.alsoOldNets
      else NetLikeRestriction.ipsAndCidrs
    (netLikeSpans buf restrict).map (fun l => l.filterMap (processSpan cfg buf))

/-! ## Concrete inputs used in the theorems -/

/-- The 7-byte buffer `0000000` (seven ASCII zeros). -/
def bufSevenZeros : List Nat := bytesOf ['0', '0', '0', '0', '0', '0', '0']

/-- The buffer `deadbeef`. -/
def bufDeadbeef : List Nat := bytesOf ['d', 'e', 'a', 'd', 'b', 'e', 'e', 'f']

/-- The buffer `0z ::1`. -/
def bufZeroZ : List Nat := bytesOf ['0', 'z', ' ', ':', ':', '1']

/-- The buffer `::1.2`. -/
def bufColonDot : List Nat := bytesOf [':', ':', '1', '.', '2']

/-- The buffer `128.128.0.0/255.255.0.0`. -/
def bufOldMask : List Nat :=
  bytesOf ['1', '2', '8', '.', '1', '2', '8', '.', '0', '.', '0', '/',
           '2', '5', '5', '.', '2', '5', '5', '.', '0', '.', '0']

/-- A policy accepting bare IPs and CIDR networks (both address families,
legacy netmasks off). -/
def cfgIpNet : NetCandidateScanner :=
  ⟨true, true, ⟨true, true, false, false⟩, .treatAsIp⟩

/-- The same policy with legacy dotted-netmask recognition enabled. -/
def cfgIpNetOld : NetCandidateScanner :=
  ⟨true, true, ⟨true, true, true, false⟩, .treatAsIp⟩

/-- Number of colons among `buf[a..b)`. -/
def colonCount (buf : List Nat) (a b : Nat) : Nat :=
  (List.range' a (b - a)).countP (fun k => byteAt buf k == colonB)

/-- The buffer `::255:255.0.0.4` (from the repository's own test suite). -/
def bufV6DotRun : List Nat :=
  bytesOf [':', ':', '2', '5', '5', ':', '2', '5', '5', '.', '0', '.', '0', '.', '4']

/-- The input `::1/ff.0.0.0`. -/
def bufV6DottedMask : List Nat :=
  bytesOf [':', ':', '1', '/', 'f', 'f', '.', '0', '.', '0', '.', '0']

/-! ## C1 -/

/-- C1: the claim states that for every byte buffer the iteration
terminates and yields well-formed, strictly advancing spans.  The code
violates it: on the 7-byte buffer `0000000` the very first `next_impl`
call evaluates `bytes[self.pos - 1]` with `self.pos = 8` (after the
rejected IPv6 attempt consumed the whole buffer), an out-of-bounds index
that panics instead of returning a span or the terminal signal. -/
theorem c1_scanner_panics_on_seven_zeros :
    nextImpl bufSevenZeros .ipsAndCidrs 0 = ScanStep.crash := by decide

/-! ## C2 -/

/-- C2: the claim states that removing the prefilter check never changes
`find_all`'s result.  On the buffer `deadbeef` (no dot, no colon) the
prefilter returns `false` and `find_all` returns the empty list, but with
the prefilter check removed the scan panics on the out-of-bounds
`bytes[self.pos - 1]` after the rejected hex run reaches the end of the
buffer — so the two variants do not agree. -/
theorem c2_prefilter_not_transparent :
    findAll cfgIpNet bufDeadbeef = some [] ∧
    findAllNoPrefilter cfgIpNet bufDeadbeef = none := by decide

/-! ## C3 -/

/-- C3 counterexample: on the 6-byte buffer `0z ::1` the first call
returns the "no more candidates" signal (`None`, cursor 2) — the
`leftover < 7` fast path returns `try_ipv6`'s rejection directly — yet
the next call yields the span `(3, 6)` (the text `::1`).  `None` is
therefore not terminal, refuting the claim as stated. -/
theorem c3_counterexample :
    nextImpl bufZeroZ .ipsAndCidrs 0 = ScanStep.next none 2 ∧
    nextImpl bufZeroZ .ipsAndCidrs 2 = ScanStep.next (some (3, 6)) 7 := by decide

/-- C3 amended: a `None` returned with the cursor still inside the buffer
(the short-tail IPv6 rejection path) is not terminal; but once the cursor
has reached or passed the end of the buffer, `next_impl` returns `None`
and leaves the cursor unchanged, so every subsequent call returns `None`
as well. -/
theorem c3_none_terminal_at_end (buf : List Nat) (restrict : NetLikeRestriction)
    (pos : Nat) (h : buf.length ≤ pos) :
    nextImpl buf restrict pos = ScanStep.next none pos := by
  have h7 : buf.length - pos < 7 := by omega
  have hlt : ¬ pos < buf.length := by omega
  unfold nextImpl
  rw [if_pos h7]
  cases hf : buf.length + 1 - pos with
  | zero => rfl
  | succ f =>
    unfold shortScan
    rw [if_neg hlt]

/-- Witness for C3's amended theorem at the buffer `a`, cursor 5. -/
theorem c3_witness :
    nextImpl (bytesOf ['a']) .ipsAndCidrs 5 = ScanStep.next none 5 :=
  c3_none_terminal_at_end (bytesOf ['a']) .ipsAndCidrs 5 (by decide)

/-! ## C5 -/

/-- C5: on `128.128.0.0/255.255.0.0` with a policy accepting bare IPs and
networks: with legacy netmasks disabled, exactly two matches whose ranges
cover `128.128.0.0` and `255.255.0.0`; with legacy netmasks enabled,
exactly one match covering the whole input whose value equals the value
parsed from `128.128.0.0/16`.  (`2155872256 = 128.128.0.0`,
`4294901760 = 255.255.0.0`.) -/
theorem c5_legacy_netmask_scenario :
    findAll cfgIpNet bufOldMask =
      some [((0, 11), Net.v4 2155872256 32), ((12, 23), Net.v4 4294901760 32)] ∧
    (bufOldMask.drop 0).take 11 =
      bytesOf ['1', '2', '8', '.', '1', '2', '8', '.', '0', '.', '0'] ∧
    (bufOldMask.drop 12).take 11 =
      bytesOf ['2', '5', '5', '.', '2', '5', '5', '.', '0', '.', '0'] ∧
    findAll cfgIpNetOld bufOldMask = some [((0, 23), Net.v4 2155872256 16)] ∧
    netTryFrom (bytesOf ['1', '2', '8', '.', '1', '2', '8', '.', '0', '.', '0',
                         '/', '1', '6']) =
      Except.ok (Net.v4 2155872256 16) := by decide

/-! ## C7 -/

/-- C7: when the needle operand is a proper network (no host bits),
`Contains(H, N)` and `Within(N, H)` evaluate to the same result — both
reduce to checking that `H` contains `N`'s network and broadcast
addresses. -/
theorem c7_contains_within_mirror (hay ndl : Net)
    (h : ndl.hasHostBits = false) :
    MatchMode.matches .contains hay ndl = MatchMode.matches .within ndl hay := by
  simp [MatchMode.matches, h]

/-- Witness for C7 at `H = 10.0.0.0/8`, `N = 10.0.0.0/24`. -/
theorem c7_witness :
    MatchMode.matches .contains (Net.v4 167772160 8) (Net.v4 167772160 24) =
      MatchMode.matches .within (Net.v4 167772160 24) (Net.v4 167772160 8) :=
  c7_contains_within_mirror (Net.v4 167772160 8) (Net.v4 167772160 24) (by decide)

/-! ## C8 -/

/-- C8 counterexample: the claim says every mode returns `false` on every
mixed-family pair.  But for `Contains` with the IPv6 needle `::1/0` —
which has host bits — the `assert!` fires (modelled by `none`): no boolean
is returned at all, let alone `false`. -/
theorem c8_counterexample :
    (Net.v4 167772160 8).isIpv4 = true ∧ (Net.v6 1 0).isIpv6 = true ∧
    MatchMode.matches .contains (Net.v4 167772160 8) (Net.v6 1 0) = none := by
  decide

/-- C8 amended: on mixed-family operands `Equals` and `Overlaps` return
`false` unconditionally, and `Contains`/`Within` return `false` provided
the operand their assertion checks (needle for `Contains`, haystack for
`Within`) has no host bits; no IPv4-in-IPv6 mapping is applied. -/
theorem c8_mixed_family_false (hay ndl : Net)
    (hfam : hay.isIpv4 ≠ ndl.isIpv4) :
    MatchMode.matches .equals hay ndl = some false ∧
    MatchMode.matches .overlaps hay ndl = some false ∧
    (ndl.hasHostBits = false → MatchMode.matches .contains hay ndl = some false) ∧
    (hay.hasHostBits = false → MatchMode.matches .within hay ndl = some false) := by
  cases hay with
  | v4 a p =>
    cases ndl with
    | v4 b q => simp [Net.isIpv4] at hfam
    | v6 b q =>
      refine ⟨by simp [MatchMode.matches], by simp [MatchMode.matches, MatchMode.overlapsFn], ?_, ?_⟩
      · intro h
        simp [MatchMode.matches, h, Net.containsAddr, Net.networkIp, Net.broadcastIp]
      · intro h
        simp [MatchMode.matches, h, Net.containsAddr, Net.networkIp, Net.broadcastIp]
  | v6 a p =>
    cases ndl with
    | v6 b q => simp [Net.isIpv4] at hfam
    | v4 b q =>
      refine ⟨by simp [MatchMode.matches], by simp [MatchMode.matches, MatchMode.overlapsFn], ?_, ?_⟩
      · intro h
        simp [MatchMode.matches, h, Net.containsAddr, Net.networkIp, Net.broadcastIp]
      · intro h
        simp [MatchMode.matches, h, Net.containsAddr, Net.networkIp, Net.broadcastIp]

/-- Witness for C8's amended theorem at `10.0.0.0/8` against `::/128`
(both proper networks, different families). -/
theorem c8_witness :
    MatchMode.matches .equals (Net.v4 167772160 8) (Net.v6 0 128) = some false ∧
    MatchMode.matches .overlaps (Net.v4 167772160 8) (Net.v6 0 128) = some false ∧
    MatchMode.matches .contains (Net.v4 167772160 8) (Net.v6 0 128) = some false ∧
    MatchMode.matches .within (Net.v4 167772160 8) (Net.v6 0 128) = some false := by
  have h := c8_mixed_family_false (Net.v4 167772160 8) (Net.v6 0 128) (by decide)
  exact ⟨h.1, h.2.1, h.2.2.1 (by decide), h.2.2.2 (by decide)⟩

/-! ## C9 -/

/-- C9: `Contains` fails its assertion (returns no boolean) exactly when
the needle has host bits, `Within` exactly when the haystack has host
bits; when the checked operand is a proper network a boolean is always
returned. -/
theorem c9_assertion_behaviour (hay ndl : Net) :
    (MatchMode.matches .contains hay ndl = none ↔ ndl.hasHostBits = true) ∧
    (MatchMode.matches .within hay ndl = none ↔ hay.hasHostBits = true) ∧
    (ndl.hasHostBits = false → ∃ b, MatchMode.matches .contains hay ndl = some b) ∧
    (hay.hasHostBits = false → ∃ b, MatchMode.matches .within hay ndl = some b) := by
  refine ⟨?_, ?_, ?_, ?_⟩
  · cases h : ndl.hasHostBits <;> simp [MatchMode.matches, h]
  · cases h : hay.hasHostBits <;> simp [MatchMode.matches, h]
  · intro h
    exact ⟨hay.containsAddr ndl.networkIp && hay.containsAddr ndl.broadcastIp,
      by simp [MatchMode.matches, h]⟩
  · intro h
    exact ⟨ndl.containsAddr hay.networkIp && ndl.containsAddr hay.broadcastIp,
      by simp [MatchMode.matches, h]⟩

/-- Witness for C9: `10.0.0.1/24` (host bits set) as needle makes
`Contains` fail its assertion; as a proper network `10.0.0.0/24` it
returns a boolean. -/
theorem c9_witness :
    MatchMode.matches .contains (Net.v4 0 0) (Net.v4 167772161 24) = none ∧
    ∃ b, MatchMode.matches .contains (Net.v4 0 0) (Net.v4 167772160 24) = some b := by
  constructor
  · exact (c9_assertion_behaviour (Net.v4 0 0) (Net.v4 167772161 24)).1.mpr (by decide)
  · exact (c9_assertion_behaviour (Net.v4 0 0) (Net.v4 167772160 24)).2.2.1 (by decide)


/-! ## C4 -/

theorem colonCount_step (buf : List Nat) {a b : Nat} (h : a < b) :
    colonCount buf a b =
      (if byteAt buf a == colonB then 1 else 0) + colonCount buf (a + 1) b := by
  unfold colonCount
  have hb : b - a = (b - (a + 1)) + 1 := by omega
  rw [hb, List.range'_succ, List.countP_cons]
  by_cases hc : byteAt buf a == colonB <;> simp [hc, Nat.add_comm]

theorem colonCount_self (buf : List Nat) (a : Nat) : colonCount buf a a = 0 := by
  unfold colonCount
  simp

theorem isHexB_ne_colon {b : Nat} (h : isHexB b = true) : b ≠ colonB := by
  unfold isHexB isDigitB isHexLetterB at h
  unfold colonB
  simp only [Bool.or_eq_true, Bool.and_eq_true, decide_eq_true_eq] at h
  omega

/-- One unfolding step of the `try_ipv6` loop at positive fuel. -/
theorem v6Loop_succ (buf : List Nat) (start e colons f : Nat) :
    v6Loop buf start e colons (f + 1) =
      if e < buf.length then
        if isHexB (byteAt buf e) then v6Loop buf start (e + 1) colons f
        else if byteAt buf e == colonB then v6Loop buf start (e + 1) (colons + 1) f
        else if byteAt buf e == dotB then
          if start + 7 < buf.length && !isMappedStart buf start then
            (some (start, e), e + 1)
          else v6Loop buf start (e + 1) colons f
        else if byteAt buf e == slashB then
          if colons ≥ 2 then maybeNetmask buf start (e + 1) .ipsAndCidrs
          else (none, e + 1)
        else if isNonHexLetterB (byteAt buf e) then (none, e + 1)
        else (if colons ≥ 2 then some (start, e) else none, e + 1)
      else (if colons ≥ 2 then some (start, e) else none, e + 1) := rfl

/-- The `try_ipv6` loop crossing a run of hex digits and colons that ends
at a dot: either the truncation guard fires (the span ends at the dot and
the cursor skips it), or the dot is consumed and the loop continues from
just past it with the accumulated colon count. -/
theorem v6Loop_dot_run (buf : List Nat) (start j : Nat)
    (hj : j < buf.length) (hdot : byteAt buf j = dotB) :
    ∀ d e colons, j - e = d → e ≤ j →
      (∀ k, e ≤ k → k < j → isHexB (byteAt buf k) = true ∨ byteAt buf k = colonB) →
      v6Loop buf start e colons (buf.length + 1 - e) =
        if start + 7 < buf.length ∧ isMappedStart buf start = false then
          (some (start, j), j + 1)
        else
          v6Loop buf start (j + 1) (colons + colonCount buf e j)
            (buf.length - j) := by
  intro d
  induction d with
  | zero =>
    intro e colons hd hej _hrun
    have he : e = j := by omega
    subst he
    obtain ⟨f, hf, hfval⟩ : ∃ f, buf.length + 1 - e = f + 1 ∧ f = buf.length - e :=
      ⟨buf.length - e, by omega, rfl⟩
    rw [hf, v6Loop_succ, if_pos hj, hdot]
    rw [show isHexB dotB = false from rfl, show (dotB == colonB) = false from rfl,
        show (dotB == dotB) = true from rfl]
    simp only [Bool.false_eq_true, if_false, if_true]
    by_cases hc1 : start + 7 < buf.length <;> by_cases hc2 : isMappedStart buf start <;>
      simp [hc1, hc2, hfval, colonCount_self]
  | succ d ih =>
    intro e colons hd hej hrun
    have hel : e < j := by omega
    have helen : e < buf.length := by omega
    obtain ⟨f, hf, hfval⟩ : ∃ f, buf.length + 1 - e = f + 1 ∧ f = buf.length - e :=
      ⟨buf.length - e, by omega, rfl⟩
    have hfe : f = buf.length + 1 - (e + 1) := by omega
    rw [hf, v6Loop_succ, if_pos helen]
    rcases hrun e le_rfl hel with hhex | hcol
    · rw [if_pos hhex, hfe,
        ih (e + 1) colons (by omega) (by omega) (fun k hk1 hk2 => hrun k (by omega) hk2)]
      have hcc : colons + colonCount buf (e + 1) j = colons + colonCount buf e j := by
        rw [colonCount_step buf hel]
        simp [beq_eq_false_iff_ne.mpr (isHexB_ne_colon hhex)]
      rw [hcc]
    · have hnothex : isHexB (byteAt buf e) = false := by rw [hcol]; rfl
      rw [if_neg (by simp [hnothex]), if_pos (by rw [hcol]; rfl), hfe,
        ih (e + 1) (colons + 1) (by omega) (by omega) (fun k hk1 hk2 => hrun k (by omega) hk2)]
      have hcc : colons + 1 + colonCount buf (e + 1) j = colons + colonCount buf e j := by
        rw [colonCount_step buf hel]
        simp [hcol, Nat.add_assoc]
      rw [hcc]

/-- C4 counterexample: in `::1.2` the dot at index 3 is reached with the
leading bytes not matching `::ffff:` (there are no 7 such bytes at all),
yet the dotted part is consumed — the span runs to the end of the buffer
(`(0, 5)`), not to the dot (`(0, 3)`), because the truncation guard also
requires `start + 7 < len`.  This refutes the claimed "iff the 7 bytes
... match `::ffff:`". -/
theorem c4_counterexample :
    byteAt bufColonDot 3 = dotB ∧ isMappedStart bufColonDot 0 = false ∧
    tryIpv6 bufColonDot 0 = (some (0, 5), 6) ∧
    tryIpv6 bufColonDot 0 ≠ (some (0, 3), 4) := by decide

/-- C4 amended: when the IPv6 loop, started at `start`, runs over hex
digits and colons up to a dot at position `j`, the dot triggers
truncation — the token ends at `j` and the cursor skips the dot — iff
`start + 7 < len` and the **first seven bytes of the run** (at `start`,
not before it) do not case-insensitively spell `::ffff:`; otherwise (the
pattern matches, or fewer than 8 bytes remain from the run's start) the
dot is consumed and scanning continues inside the same token just past
the dot. -/
theorem c4_ipv6_dot_handling (buf : List Nat) (start j : Nat)
    (hsj : start ≤ j) (hj : j < buf.length)
    (hrun : ∀ k, start ≤ k → k < j →
      isHexB (byteAt buf k) = true ∨ byteAt buf k = colonB)
    (hdot : byteAt buf j = dotB) :
    (start + 7 < buf.length ∧ isMappedStart buf start = false →
      tryIpv6 buf start = (some (start, j), j + 1)) ∧
    (¬ (start + 7 < buf.length ∧ isMappedStart buf start = false) →
      tryIpv6 buf start =
        v6Loop buf start (j + 1) (colonCount buf start j) (buf.length - j)) := by
  have h := v6Loop_dot_run buf start j hj hdot (j - start) start 0 rfl hsj hrun
  unfold tryIpv6
  constructor
  · intro hc
    rw [h, if_pos hc]
  · intro hc
    rw [h, if_neg hc, Nat.zero_add]

/-- Witness for C4's amended theorem: on `::255:255.0.0.4` the run does
not start with `::ffff:` and more than 7 bytes follow, so the token is
truncated at the dot: the span is `(0, 9)` (the text `::255:255`). -/
theorem c4_witness : tryIpv6 bufV6DotRun 0 = (some (0, 9), 10) :=
  (c4_ipv6_dot_handling bufV6DotRun 0 9 (by omega) (by decide)
    (fun k _ hk2 =>
      (by decide :
        ∀ k, k < 9 → (isHexB (byteAt bufV6DotRun k) = true ∨ byteAt bufV6DotRun k = colonB)) k hk2)
    (by decide)).1 (by decide)

/-! ## Splitting and joining lemmas shared by C6 and C10 -/

theorem splitSepB_ne_nil (sep : Nat) (s : List Nat) : splitSepB sep s ≠ [] := by
  cases s with
  | nil => simp [splitSepB]
  | cons c rest =>
    unfold splitSepB
    by_cases h : c = sep
    · simp [h]
    · rw [if_neg h]
      cases hh : splitSepB sep rest <;> simp

theorem joinSep_splitSepB (sep : Nat) (s : List Nat) :
    joinSep sep (splitSepB sep s) = s := by
  induction s with
  | nil => rfl
  | cons c rest ih =>
    unfold splitSepB
    by_cases h : c = sep
    · rw [if_pos h]
      cases hts : splitSepB sep rest with
      | nil => exact absurd hts (splitSepB_ne_nil sep rest)
      | cons t ts =>
        rw [hts] at ih
        show [] ++ sep :: joinSep sep (t :: ts) = c :: rest
        rw [ih, h]
        rfl
    · rw [if_neg h]
      cases hts : splitSepB sep rest with
      | nil => exact absurd hts (splitSepB_ne_nil sep rest)
      | cons t ts =>
        rw [hts] at ih
        cases ts with
        | nil =>
          show c :: t = c :: rest
          rw [show joinSep sep [t] = t from rfl] at ih
          rw [ih]
        | cons u us =>
          show (c :: t) ++ sep :: joinSep sep (u :: us) = c :: rest
          rw [show joinSep sep (t :: u :: us) = t ++ sep :: joinSep sep (u :: us) from rfl] at ih
          rw [List.cons_append, ih]

theorem mem_splitSepB (sep : Nat) (s : List Nat) (b : Nat) (hb : b ∈ s) :
    (∃ t ∈ splitSepB sep s, b ∈ t) ∨ b = sep := by
  induction s with
  | nil => cases hb
  | cons c rest ih =>
    unfold splitSepB
    by_cases h : c = sep
    · rw [if_pos h]
      rcases List.mem_cons.mp hb with rfl | hbr
      · right; exact h
      · rcases ih hbr with ⟨t, ht, hbt⟩ | hsep
        · left; exact ⟨t, List.mem_cons_of_mem _ ht, hbt⟩
        · right; exact hsep
    · rw [if_neg h]
      cases hts : splitSepB sep rest with
      | nil => exact absurd hts (splitSepB_ne_nil sep rest)
      | cons t ts =>
        rcases List.mem_cons.mp hb with rfl | hbr
        · left; exact ⟨b :: t, List.mem_cons_self _ _, List.mem_cons_self _ _⟩
        · rcases ih hbr with ⟨u, hu, hbu⟩ | hsep
          · rw [hts] at hu
            rcases List.mem_cons.mp hu with rfl | hu'
            · left; exact ⟨c :: u, List.mem_cons_self _ _, List.mem_cons_of_mem _ hbu⟩
            · left; exact ⟨u, List.mem_cons_of_mem _ hu', hbu⟩
          · right; exact hsep

theorem splitOnceB_append (sep : Nat) (x y : List Nat) (hx : sep ∉ x) :
    splitOnceB sep (x ++ sep :: y) = some (x, y) := by
  induction x with
  | nil => simp [splitOnceB]
  | cons c x' ih =>
    have hc : ¬ c = sep := fun h => hx (h ▸ List.mem_cons_self c x')
    show splitOnceB sep (c :: (x' ++ sep :: y)) = some (c :: x', y)
    unfold splitOnceB
    rw [if_neg hc, ih (fun hm => hx (List.mem_cons_of_mem _ hm))]
    rfl

theorem findDC_eq (s : List Nat) :
    ∀ l r, findDC s = some (l, r) → s = l ++ colonB :: colonB :: r := by
  induction s with
  | nil => intro l r h; simp [findDC] at h
  | cons c rest ih =>
    intro l r h
    cases rest with
    | nil => simp [findDC] at h
    | cons c2 rest2 =>
      unfold findDC at h
      by_cases hcc : c = colonB ∧ c2 = colonB
      · rw [if_pos hcc] at h
        injection h with h'
        simp only [Prod.mk.injEq] at h'
        obtain ⟨rfl, rfl⟩ := h'
        simp [hcc.1, hcc.2]
      · rw [if_neg hcc] at h
        cases hdc : findDC (c2 :: rest2) with
        | none => rw [hdc] at h; simp at h
        | some q =>
          rw [hdc] at h
          simp only [Option.map_some'] at h
          injection h with h'
          simp only [Prod.mk.injEq] at h'
          obtain ⟨hl, hr⟩ := h'
          have hq := ih q.1 q.2 (by rw [hdc])
          rw [← hl, ← hr, hq]
          rfl

/-! ### Parser inversion and character-class lemmas -/

theorem parseOctet_some {tok : List Nat} {a : Nat} (h : parseOctet tok = some a) :
    tok ≠ [] ∧ tok.all isDigitB = true ∧ (tok.length = 1 ∨ tok.headD 0 ≠ 48) ∧
      decVal tok ≤ 255 ∧ a = decVal tok := by
  unfold parseOctet at h
  by_cases hc : tok ≠ [] ∧ tok.all isDigitB = true ∧ (tok.length = 1 ∨ tok.headD 0 ≠ 48)
      ∧ decVal tok ≤ 255
  · rw [if_pos hc] at h
    injection h with h'
    exact ⟨hc.1, hc.2.1, hc.2.2.1, hc.2.2.2, h'.symm⟩
  · rw [if_neg hc] at h
    cases h

theorem parseHexGroup_some {tok : List Nat} {a : Nat} (h : parseHexGroup tok = some a) :
    tok ≠ [] ∧ tok.all isHexB = true ∧ tok.length ≤ 4 ∧ a = hexVal tok := by
  unfold parseHexGroup at h
  by_cases hc : tok ≠ [] ∧ tok.all isHexB = true ∧ tok.length ≤ 4
  · rw [if_pos hc] at h
    injection h with h'
    exact ⟨hc.1, hc.2.1, hc.2.2, h'.symm⟩
  · rw [if_neg hc] at h
    cases h

theorem parseIpv4_inv {s : List Nat} {a : Nat} (h : parseIpv4 s = some a) :
    ∃ t1 t2 t3 t4 o1 o2 o3 o4,
      splitSepB dotB s = [t1, t2, t3, t4] ∧
      parseOctet t1 = some o1 ∧ parseOctet t2 = some o2 ∧
      parseOctet t3 = some o3 ∧ parseOctet t4 = some o4 ∧
      a = ((o1 * 256 + o2) * 256 + o3) * 256 + o4 := by
  unfold parseIpv4 at h
  cases hsp : splitSepB dotB s with
  | nil => rw [hsp] at h; cases h
  | cons t1 ts1 =>
    rw [hsp] at h
    cases ts1 with
    | nil => cases h
    | cons t2 ts2 =>
      cases ts2 with
      | nil => cases h
      | cons t3 ts3 =>
        cases ts3 with
        | nil => cases h
        | cons t4 ts4 =>
          cases ts4 with
          | cons t5 ts5 => cases h
          | nil =>
            replace h :
                (match parseOctet t1, parseOctet t2, parseOctet t3, parseOctet t4 with
                  | some o1, some o2, some o3, some o4 =>
                    some (((o1 * 256 + o2) * 256 + o3) * 256 + o4)
                  | _, _, _, _ => none) = some a := h
            cases h1 : parseOctet t1 with
            | none => rw [h1] at h; cases h
            | some o1 =>
              cases h2 : parseOctet t2 with
              | none => rw [h1, h2] at h; cases h
              | some o2 =>
                cases h3 : parseOctet t3 with
                | none => rw [h1, h2, h3] at h; cases h
                | some o3 =>
                  cases h4 : parseOctet t4 with
                  | none => rw [h1, h2, h3, h4] at h; cases h
                  | some o4 =>
                    rw [h1, h2, h3, h4] at h
                    injection h with h'
                    exact ⟨t1, t2, t3, t4, o1, o2, o3, o4, rfl, h1, h2, h3, h4, h'.symm⟩

theorem parseIpv4_chars {s : List Nat} {a : Nat} (h : parseIpv4 s = some a) :
    ∀ b ∈ s, isDigitB b = true ∨ b = dotB := by
  obtain ⟨t1, t2, t3, t4, o1, o2, o3, o4, hsp, h1, h2, h3, h4, _⟩ := parseIpv4_inv h
  intro b hb
  rcases mem_splitSepB dotB s b hb with ⟨t, ht, hbt⟩ | hd
  · rw [hsp] at ht
    left
    have hall : t.all isDigitB = true := by
      rcases List.mem_cons.mp ht with rfl | ht'
      · exact (parseOctet_some h1).2.1
      rcases List.mem_cons.mp ht' with rfl | ht''
      · exact (parseOctet_some h2).2.1
      rcases List.mem_cons.mp ht'' with rfl | ht'''
      · exact (parseOctet_some h3).2.1
      rcases List.mem_cons.mp ht''' with rfl | hx
      · exact (parseOctet_some h4).2.1
      · cases hx
    exact List.all_eq_true.mp hall b hbt
  · right; exact hd

theorem parseIpv4_none_of_colon {s : List Nat} (h : colonB ∈ s) :
    parseIpv4 s = none := by
  cases hp : parseIpv4 s with
  | none => rfl
  | some a =>
    rcases parseIpv4_chars hp colonB h with hd | hd
    · exact absurd hd (by decide)
    · exact absurd hd (by decide)

theorem parseV6Groups_chars (flag : Bool) :
    ∀ toks gs, parseV6Groups flag toks = some gs →
      ∀ t ∈ toks, ∀ b ∈ t, isHexB b = true ∨ b = dotB := by
  intro toks
  induction toks with
  | nil => intro gs _ t ht; cases ht
  | cons t0 ts ih =>
    intro gs h t ht
    cases ts with
    | nil =>
      rcases List.mem_cons.mp ht with rfl | hx
      · intro b hb
        unfold parseV6Groups at h
        by_cases hc : flag = true ∧ t.contains dotB = true
        · rw [if_pos ⟨hc.1, hc.2⟩] at h
          cases h4 : parseIpv4 t with
          | none => rw [h4] at h; cases h
          | some a =>
            rcases parseIpv4_chars h4 b hb with hd | hd
            · left
              unfold isHexB
              rw [hd]
              rfl
            · right; exact hd
        · have : ¬ (flag ∧ t.contains dotB = true) := by
            intro hcon
            exact hc ⟨hcon.1, hcon.2⟩
          rw [if_neg this] at h
          cases hg : parseHexGroup t with
          | none => rw [hg] at h; cases h
          | some g =>
            left
            exact List.all_eq_true.mp (parseHexGroup_some hg).2.1 b hb
      · cases hx
    | cons t1 ts1 =>
      unfold parseV6Groups at h
      cases hg : parseHexGroup t0 with
      | none => rw [hg] at h; cases h
      | some g =>
        cases hgs : parseV6Groups flag (t1 :: ts1) with
        | none => rw [hg, hgs] at h; cases h
        | some gs' =>
          rcases List.mem_cons.mp ht with rfl | ht'
          · intro b hb
            left
            exact List.all_eq_true.mp (parseHexGroup_some hg).2.1 b hb
          · exact ih gs' hgs t ht'

theorem parseV6Groups_length (flag : Bool) :
    ∀ toks gs, parseV6Groups flag toks = some gs →
      toks.length ≤ gs.length ∧ gs.length ≤ 2 * toks.length := by
  intro toks
  induction toks with
  | nil =>
    intro gs h
    unfold parseV6Groups at h
    injection h with h'
    simp [← h']
  | cons t0 ts ih =>
    intro gs h
    cases ts with
    | nil =>
      unfold parseV6Groups at h
      by_cases hc : flag ∧ t0.contains dotB = true
      · rw [if_pos hc] at h
        cases h4 : parseIpv4 t0 with
        | none => rw [h4] at h; cases h
        | some a =>
          rw [h4] at h
          injection h with h'
          simp [← h']
      · rw [if_neg hc] at h
        cases hg : parseHexGroup t0 with
        | none => rw [hg] at h; cases h
        | some g =>
          rw [hg] at h
          injection h with h'
          simp [← h']
    | cons t1 ts1 =>
      unfold parseV6Groups at h
      cases hg : parseHexGroup t0 with
      | none => rw [hg] at h; cases h
      | some g =>
        cases hgs : parseV6Groups flag (t1 :: ts1) with
        | none => rw [hg, hgs] at h; cases h
        | some gs' =>
          rw [hg, hgs] at h
          injection h with h'
          have hlen := ih gs' hgs
          rw [← h']
          simp only [List.length_cons] at hlen ⊢
          omega

theorem sep_mem_of_splitSepB_two {sep : Nat} {s : List Nat} {t1 t2 : List Nat}
    {ts : List (List Nat)} (h : splitSepB sep s = t1 :: t2 :: ts) : sep ∈ s := by
  have hj := joinSep_splitSepB sep s
  rw [h] at hj
  rw [← hj]
  show sep ∈ t1 ++ sep :: joinSep sep (t2 :: ts)
  exact List.mem_append_right _ (List.mem_cons_self _ _)

theorem parseIpv6_chars {s : List Nat} {a : Nat} (h : parseIpv6 s = some a) :
    (∀ b ∈ s, isHexB b = true ∨ b = dotB ∨ b = colonB) ∧ colonB ∈ s := by
  unfold parseIpv6 at h
  cases hdc : findDC s with
  | some q =>
    rw [hdc] at h
    obtain ⟨l, r⟩ := q
    replace h :
        (match parseV6Groups false (if l.isEmpty then [] else splitSepB colonB l),
               parseV6Groups true (if r.isEmpty then [] else splitSepB colonB r) with
          | some lg, some rg =>
            if lg.length + rg.length ≤ 7 then
              some (segsToNat (lg ++ List.replicate (8 - lg.length - rg.length) 0 ++ rg))
            else none
          | _, _ => none) = some a := h
    have hs := findDC_eq s l r hdc
    cases hl : parseV6Groups false (if l.isEmpty then [] else splitSepB colonB l) with
    | none => rw [hl] at h; cases h
    | some lg =>
      cases hr : parseV6Groups true (if r.isEmpty then [] else splitSepB colonB r) with
      | none => rw [hl, hr] at h; cases h
      | some rg =>
        have hlchars : ∀ b ∈ l, isHexB b = true ∨ b = dotB ∨ b = colonB := by
          intro b hb
          by_cases hq : l.isEmpty
          · rw [List.isEmpty_iff.mp hq] at hb; cases hb
          · rw [if_neg hq] at hl
            rcases mem_splitSepB colonB l b hb with ⟨t, ht, hbt⟩ | hc
            · rcases parseV6Groups_chars false _ lg hl t ht b hbt with hx | hx
              · exact Or.inl hx
              · exact Or.inr (Or.inl hx)
            · exact Or.inr (Or.inr hc)
        have hrchars : ∀ b ∈ r, isHexB b = true ∨ b = dotB ∨ b = colonB := by
          intro b hb
          by_cases hq : r.isEmpty
          · rw [List.isEmpty_iff.mp hq] at hb; cases hb
          · rw [if_neg hq] at hr
            rcases mem_splitSepB colonB r b hb with ⟨t, ht, hbt⟩ | hc
            · rcases parseV6Groups_chars true _ rg hr t ht b hbt with hx | hx
              · exact Or.inl hx
              · exact Or.inr (Or.inl hx)
            · exact Or.inr (Or.inr hc)
        constructor
        · intro b hb
          rw [hs] at hb
          rcases List.mem_append.mp hb with hb1 | hb2
          · exact hlchars b hb1
          · rcases List.mem_cons.mp hb2 with rfl | hb3
            · exact Or.inr (Or.inr rfl)
            rcases List.mem_cons.mp hb3 with rfl | hb4
            · exact Or.inr (Or.inr rfl)
            · exact hrchars b hb4
        · rw [hs]
          exact List.mem_append_right _ (List.mem_cons_self _ _)
  | none =>
    rw [hdc] at h
    replace h :
        (match parseV6Groups true (splitSepB colonB s) with
          | some gs => if gs.length = 8 then some (segsToNat gs) else none
          | none => none) = some a := h
    cases hg : parseV6Groups true (splitSepB colonB s) with
    | none => rw [hg] at h; cases h
    | some gs =>
      rw [hg] at h
      replace h : (if gs.length = 8 then some (segsToNat gs) else none) = some a := h
      by_cases h8 : gs.length = 8
      · constructor
        · intro b hb
          rcases mem_splitSepB colonB s b hb with ⟨t, ht, hbt⟩ | hc
          · rcases parseV6Groups_chars true _ gs hg t ht b hbt with hx | hx
            · exact Or.inl hx
            · exact Or.inr (Or.inl hx)
          · exact Or.inr (Or.inr hc)
        · have hlen := parseV6Groups_length true _ gs hg
          cases hsp : splitSepB colonB s with
          | nil => exact absurd hsp (splitSepB_ne_nil colonB s)
          | cons t1 ts1 =>
            cases ts1 with
            | nil =>
              rw [hsp] at hlen
              simp only [List.length_cons, List.length_nil] at hlen
              omega
            | cons t2 ts2 => exact sep_mem_of_splitSepB_two hsp
      · rw [if_neg h8] at h
        cases h

/-! ## C10 -/

/-- C10: the dotted-mask branch of `Net::try_from` (taken when the part
after the first `/` is not a pure digit run) accepts only when both the
part before the `/` and the mask part parse as IPv4 addresses (and the
mask is contiguous); consequently an IPv6 address followed by a
non-numeric mask always yields `NotAnIp`, so no IPv6 network can be built
from a dotted mask. -/
theorem c10_dotted_mask_v4_only (s ipPart maskPart : List Nat)
    (hsplit : splitOnceB slashB s = some (ipPart, maskPart))
    (hmask : maskPart.all isDigitB = false) :
    (∀ v, netTryFrom s = Except.ok v →
      ∃ a m p, parseIpv4 ipPart = some a ∧ parseIpv4 maskPart = some m ∧
        maskToPfx 32 m = some p ∧ v = Net.v4 a p) ∧
    (∀ a6, parseIpv6 ipPart = some a6 →
      netTryFrom s = Except.error (NetErr.notAnIp s)) := by
  have hbody : netTryFrom s =
      (match parseIpv4 ipPart, parseIpv4 maskPart with
        | some ip, some mask =>
          match maskToPfx 32 mask with
          | some p => Except.ok (Net.v4 ip p)
          | none => Except.error (NetErr.notAnIp s)
        | _, _ => Except.error (NetErr.notAnIp s)) := by
    have h0 : netTryFrom s =
        (if maskPart.all isDigitB then
          match ipNetFromStr s with
          | some n => Except.ok n
          | none => Except.error (NetErr.notAnIp s)
        else
          match parseIpv4 ipPart, parseIpv4 maskPart with
          | some ip, some mask =>
            match maskToPfx 32 mask with
            | some p => Except.ok (Net.v4 ip p)
            | none => Except.error (NetErr.notAnIp s)
          | _, _ => Except.error (NetErr.notAnIp s)) := by
      unfold netTryFrom
      rw [hsplit]
    rw [h0, hmask]
    rfl
  constructor
  · intro v hv
    rw [hbody] at hv
    cases h1 : parseIpv4 ipPart with
    | none =>
      rw [h1] at hv
      cases h2 : parseIpv4 maskPart with
      | none => rw [h2] at hv; cases hv
      | some m => rw [h2] at hv; cases hv
    | some a =>
      rw [h1] at hv
      cases h2 : parseIpv4 maskPart with
      | none => rw [h2] at hv; cases hv
      | some m =>
        rw [h2] at hv
        replace hv :
            (match maskToPfx 32 m with
              | some p => Except.ok (Net.v4 a p)
              | none => Except.error (NetErr.notAnIp s)) = Except.ok v := hv
        cases h3 : maskToPfx 32 m with
        | none => rw [h3] at hv; cases hv
        | some p =>
          rw [h3] at hv
          injection hv with hv'
          exact ⟨a, m, p, rfl, rfl, h3, hv'.symm⟩
  · intro a6 h6
    have hcolon : colonB ∈ ipPart := (parseIpv6_chars h6).2
    have h1 : parseIpv4 ipPart = none := parseIpv4_none_of_colon hcolon
    rw [hbody, h1]

/-- Witness for C10: `::1/ff.0.0.0` — an IPv6 address before the `/`, a
non-numeric mask after it — is rejected with `NotAnIp`. -/
theorem c10_witness :
    netTryFrom bufV6DottedMask = Except.error (NetErr.notAnIp bufV6DottedMask) :=
  (c10_dotted_mask_v4_only bufV6DottedMask (bytesOf [':', ':', '1'])
    (bytesOf ['f', 'f', '.', '0', '.', '0', '.', '0'])
    (by decide) (by decide)).2 1 (by decide)

/-! ## C6: digit-level round trips -/

theorem revFold_eq_ofDigits (b : Nat) (L : List Nat) :
    L.reverse.foldl (fun acc d => acc * b + d) 0 = Nat.ofDigits b L := by
  induction L with
  | nil => simp [Nat.ofDigits]
  | cons d L ih =>
    rw [List.reverse_cons, List.foldl_append, ih, Nat.ofDigits_cons]
    simp
    ring

theorem decVal_decToBytes (n : Nat) : decVal (decToBytes n) = n := by
  by_cases h : n = 0
  · subst h; decide
  · unfold decToBytes decVal
    rw [if_neg h, List.foldl_map]
    have hext : (Nat.digits 10 n).reverse.foldl
        (fun acc d => acc * 10 + (d + 48 - 48)) 0 =
        (Nat.digits 10 n).reverse.foldl (fun acc d => acc * 10 + d) 0 := by
      apply List.foldl_ext
      intro a x _
      omega
    rw [hext, revFold_eq_ofDigits, Nat.ofDigits_digits]

theorem decToBytes_ne_nil (n : Nat) : decToBytes n ≠ [] := by
  unfold decToBytes
  by_cases h : n = 0
  · simp [h]
  · rw [if_neg h]
    simp [Nat.digits_ne_nil_iff_ne_zero.mpr h]

theorem decToBytes_digits (n : Nat) : (decToBytes n).all isDigitB = true := by
  unfold decToBytes
  by_cases h : n = 0
  · simp [h]; decide
  · rw [if_neg h]
    rw [List.all_eq_true]
    intro b hb
    rw [List.mem_map] at hb
    obtain ⟨d, hd, rfl⟩ := hb
    rw [List.mem_reverse] at hd
    have := Nat.digits_lt_base (by norm_num) hd
    unfold isDigitB
    simp only [Bool.and_eq_true, decide_eq_true_eq]
    omega

theorem decToBytes_head (n : Nat) (h : n ≠ 0) : (decToBytes n).headD 0 ≠ 48 := by
  unfold decToBytes
  rw [if_neg h]
  have hnil : Nat.digits 10 n ≠ [] := Nat.digits_ne_nil_iff_ne_zero.mpr h
  have hlast : (Nat.digits 10 n).getLast hnil ≠ 0 := Nat.getLast_digit_ne_zero 10 h
  have hlastq : (Nat.digits 10 n).getLast? = some ((Nat.digits 10 n).getLast hnil) :=
    List.getLast?_eq_getLast _ hnil
  cases hrev : (Nat.digits 10 n).reverse with
  | nil => rw [List.reverse_eq_nil_iff] at hrev; exact absurd hrev hnil
  | cons d t =>
    have hhead : (Nat.digits 10 n).getLast? = some d := by
      rw [← List.head?_reverse, hrev]
      rfl
    have hdval : d ≠ 0 := by
      rw [hlastq] at hhead
      injection hhead with hh
      omega
    simp only [List.map_cons, List.headD_cons]
    omega

theorem parseOctet_decToBytes {n : Nat} (h : n ≤ 255) :
    parseOctet (decToBytes n) = some n := by
  unfold parseOctet
  rw [if_pos]
  · rw [decVal_decToBytes]
  · refine ⟨decToBytes_ne_nil n, decToBytes_digits n, ?_, ?_⟩
    · by_cases h0 : n = 0
      · left; simp [h0, decToBytes]
      · right; exact decToBytes_head n h0
    · rw [decVal_decToBytes]; exact h

theorem hexDigitVal_hexDigitChar {d : Nat} (h : d < 16) :
    hexDigitVal (hexDigitChar d) = d := by
  unfold hexDigitVal hexDigitChar isDigitB
  by_cases h10 : d < 10
  · rw [if_pos h10]
    have hc : (48 ≤ d + 48 && d + 48 ≤ 57) = true := by
      simp only [Bool.and_eq_true, decide_eq_true_eq]
      omega
    rw [hc, if_pos rfl]
    omega
  · rw [if_neg h10]
    have hc : (48 ≤ d + 87 && d + 87 ≤ 57) = false := by
      have hx : ¬ (d + 87 ≤ 57) := by omega
      simp [hx]
    rw [hc]
    simp only [Bool.false_eq_true, if_false]
    rw [if_pos (by omega : 97 ≤ d + 87)]
    omega

theorem hexVal_hexToBytes (n : Nat) : hexVal (hexToBytes n) = n := by
  by_cases h : n = 0
  · subst h; decide
  · unfold hexToBytes hexVal
    rw [if_neg h, List.foldl_map]
    have hext : (Nat.digits 16 n).reverse.foldl
        (fun acc d => acc * 16 + hexDigitVal (hexDigitChar d)) 0 =
        (Nat.digits 16 n).reverse.foldl (fun acc d => acc * 16 + d) 0 := by
      apply List.foldl_ext
      intro a x hx
      rw [List.mem_reverse] at hx
      rw [hexDigitVal_hexDigitChar (Nat.digits_lt_base (by norm_num) hx)]
    rw [hext, revFold_eq_ofDigits, Nat.ofDigits_digits]

theorem hexDigitChar_isHex {d : Nat} (h : d < 16) : isHexB (hexDigitChar d) = true := by
  unfold hexDigitChar isHexB isDigitB isHexLetterB
  by_cases h10 : d < 10
  · rw [if_pos h10]
    simp only [Bool.or_eq_true, Bool.and_eq_true, decide_eq_true_eq]
    omega
  · rw [if_neg h10]
    simp only [Bool.or_eq_true, Bool.and_eq_true, decide_eq_true_eq]
    omega

theorem hexToBytes_ne_nil (n : Nat) : hexToBytes n ≠ [] := by
  unfold hexToBytes
  by_cases h : n = 0
  · simp [h]
  · rw [if_neg h]
    simp [Nat.digits_ne_nil_iff_ne_zero.mpr h]

theorem hexToBytes_hex (n : Nat) : (hexToBytes n).all isHexB = true := by
  unfold hexToBytes
  by_cases h : n = 0
  · simp [h]; decide
  · rw [if_neg h, List.all_eq_true]
    intro b hb
    rw [List.mem_map] at hb
    obtain ⟨d, hd, rfl⟩ := hb
    rw [List.mem_reverse] at hd
    exact hexDigitChar_isHex (Nat.digits_lt_base (by norm_num) hd)

theorem hexToBytes_len {n : Nat} (h : n < 65536) : (hexToBytes n).length ≤ 4 := by
  unfold hexToBytes
  by_cases h0 : n = 0
  · simp [h0]
  · rw [if_neg h0, List.length_map, List.length_reverse,
      Nat.digits_len 16 n (by norm_num) h0]
    have : Nat.log 16 n < 4 :=
      Nat.log_lt_of_lt_pow h0 (by norm_num at h ⊢; omega)
    omega

theorem parseHexGroup_hexToBytes {n : Nat} (h : n < 65536) :
    parseHexGroup (hexToBytes n) = some n := by
  unfold parseHexGroup
  rw [if_pos ⟨hexToBytes_ne_nil n, hexToBytes_hex n, hexToBytes_len h⟩,
    hexVal_hexToBytes]

theorem parsePrefixLen_decToBytes {p : Nat} (h : p ≤ 255) :
    parsePrefixLen (decToBytes p) = some p := by
  unfold parsePrefixLen
  rw [if_pos ⟨decToBytes_ne_nil p, decToBytes_digits p,
    by rw [decVal_decToBytes]; exact h⟩, decVal_decToBytes]

theorem isDigitB_vals {b : Nat} (h : isDigitB b = true) :
    b ≠ dotB ∧ b ≠ slashB ∧ b ≠ colonB := by
  unfold isDigitB at h
  unfold dotB slashB colonB
  simp only [Bool.and_eq_true, decide_eq_true_eq] at h
  omega

theorem isHexB_vals {b : Nat} (h : isHexB b = true) :
    b ≠ dotB ∧ b ≠ slashB ∧ b ≠ colonB := by
  unfold isHexB isDigitB isHexLetterB at h
  unfold dotB slashB colonB
  simp only [Bool.or_eq_true, Bool.and_eq_true, decide_eq_true_eq] at h
  omega

/-- Characters of a decimal rendering are never separators. -/
theorem decToBytes_not_mem (n : Nat) :
    dotB ∉ decToBytes n ∧ slashB ∉ decToBytes n ∧ colonB ∉ decToBytes n := by
  have hall := List.all_eq_true.mp (decToBytes_digits n)
  refine ⟨fun hm => ?_, fun hm => ?_, fun hm => ?_⟩
  · exact absurd rfl (isDigitB_vals (hall _ hm)).1
  · exact absurd rfl (isDigitB_vals (hall _ hm)).2.1
  · exact absurd rfl (isDigitB_vals (hall _ hm)).2.2

theorem hexToBytes_not_mem (n : Nat) :
    dotB ∉ hexToBytes n ∧ slashB ∉ hexToBytes n ∧ colonB ∉ hexToBytes n := by
  have hall := List.all_eq_true.mp (hexToBytes_hex n)
  refine ⟨fun hm => ?_, fun hm => ?_, fun hm => ?_⟩
  · exact absurd rfl (isHexB_vals (hall _ hm)).1
  · exact absurd rfl (isHexB_vals (hall _ hm)).2.1
  · exact absurd rfl (isHexB_vals (hall _ hm)).2.2

/-! ## C6: splitting a joined token list -/

theorem splitSepB_not_mem {sep : Nat} {t : List Nat} (h : sep ∉ t) :
    splitSepB sep t = [t] := by
  induction t with
  | nil => rfl
  | cons c t ih =>
    have hc : ¬ c = sep := fun hh => h (hh ▸ List.mem_cons_self c t)
    unfold splitSepB
    rw [if_neg hc, ih (fun hm => h (List.mem_cons_of_mem _ hm))]

theorem splitSepB_append_sep {sep : Nat} {t w : List Nat} (h : sep ∉ t) :
    splitSepB sep (t ++ sep :: w) = t :: splitSepB sep w := by
  induction t with
  | nil =>
    show splitSepB sep (sep :: w) = [] :: splitSepB sep w
    simp only [splitSepB]
    rw [if_pos trivial]
  | cons c t ih =>
    have hc : ¬ c = sep := fun hh => h (hh ▸ List.mem_cons_self c t)
    show splitSepB sep (c :: (t ++ sep :: w)) = (c :: t) :: splitSepB sep w
    simp only [splitSepB]
    rw [if_neg hc, ih (fun hm => h (List.mem_cons_of_mem _ hm))]

theorem splitSepB_joinSep (sep : Nat) :
    ∀ toks : List (List Nat), toks ≠ [] → (∀ t ∈ toks, sep ∉ t) →
      splitSepB sep (joinSep sep toks) = toks := by
  intro toks
  induction toks with
  | nil => intro h; exact absurd rfl h
  | cons t ts ih =>
    intro _ hall
    cases ts with
    | nil =>
      show splitSepB sep t = [t]
      exact splitSepB_not_mem (hall t (List.mem_cons_self _ _))
    | cons u us =>
      show splitSepB sep (t ++ sep :: joinSep sep (u :: us)) = t :: u :: us
      rw [splitSepB_append_sep (hall t (List.mem_cons_self _ _)),
        ih (by simp) (fun x hx => hall x (List.mem_cons_of_mem _ hx))]

theorem mem_joinSep {sep : Nat} :
    ∀ (toks : List (List Nat)) (b : Nat), b ∈ joinSep sep toks →
      (∃ t ∈ toks, b ∈ t) ∨ b = sep := by
  intro toks
  induction toks with
  | nil => intro b hb; cases hb
  | cons t ts ih =>
    intro b hb
    cases ts with
    | nil =>
      exact Or.inl ⟨t, List.mem_cons_self _ _, hb⟩
    | cons u us =>
      rw [show joinSep sep (t :: u :: us) = t ++ sep :: joinSep sep (u :: us) from rfl] at hb
      rcases List.mem_append.mp hb with hb1 | hb2
      · exact Or.inl ⟨t, List.mem_cons_self _ _, hb1⟩
      · rcases List.mem_cons.mp hb2 with rfl | hb3
        · exact Or.inr rfl
        · rcases ih b hb3 with ⟨x, hx, hbx⟩ | hs
          · exact Or.inl ⟨x, List.mem_cons_of_mem _ hx, hbx⟩
          · exact Or.inr hs

/-! ## C6: place-value recombination -/

theorem combine_div_mod (a k j w : Nat) :
    a / 2 ^ (k + w) % 2 ^ j * 2 ^ w + a / 2 ^ k % 2 ^ w = a / 2 ^ k % 2 ^ (j + w) := by
  have h1 : (2 : Nat) ^ (j + w) = 2 ^ w * 2 ^ j := by rw [pow_add, Nat.mul_comm]
  have h2 : a / 2 ^ k % 2 ^ (j + w) / 2 ^ w = a / 2 ^ (k + w) % 2 ^ j := by
    rw [h1, Nat.mod_mul_right_div_self, Nat.div_div_eq_div_mul, ← pow_add]
  have h3 : a / 2 ^ k % 2 ^ (j + w) % 2 ^ w = a / 2 ^ k % 2 ^ w := by
    rw [h1]
    exact Nat.mod_mod_of_dvd _ ⟨2 ^ j, rfl⟩
  have hdm := Nat.div_add_mod (a / 2 ^ k % 2 ^ (j + w)) (2 ^ w)
  rw [h2, h3] at hdm
  rw [Nat.mul_comm] at hdm
  exact hdm

theorem v4_decompose {a : Nat} (h : a < 2 ^ 32) :
    ((a / 16777216 % 256 * 256 + a / 65536 % 256) * 256 + a / 256 % 256) * 256
      + a % 256 = a := by
  have e1 : a / 2 ^ (16 + 8) % 2 ^ 8 * 2 ^ 8 + a / 2 ^ 16 % 2 ^ 8 =
      a / 2 ^ 16 % 2 ^ (8 + 8) := combine_div_mod a 16 8 8
  have e2 : a / 2 ^ (8 + 8) % 2 ^ 16 * 2 ^ 8 + a / 2 ^ 8 % 2 ^ 8 =
      a / 2 ^ 8 % 2 ^ (16 + 8) := combine_div_mod a 8 16 8
  have e3 : a / 2 ^ (0 + 8) % 2 ^ 24 * 2 ^ 8 + a / 2 ^ 0 % 2 ^ 8 =
      a / 2 ^ 0 % 2 ^ (24 + 8) := combine_div_mod a 0 24 8
  norm_num at e1 e2 e3
  have hlit : a < 4294967296 := by norm_num at h; exact h
  rw [e1, e2, e3, Nat.mod_eq_of_lt hlit]

theorem v4ToBytes_chars (a : Nat) :
    ∀ b ∈ v4ToBytes a, isDigitB b = true ∨ b = dotB := by
  intro b hb
  unfold v4ToBytes at hb
  rcases mem_joinSep _ b hb with ⟨t, ht, hbt⟩ | hs
  · left
    simp only [List.mem_cons, List.not_mem_nil, or_false] at ht
    rcases ht with rfl | rfl | rfl | rfl
    all_goals exact List.all_eq_true.mp (decToBytes_digits _) b hbt
  · right; exact hs

theorem parseIpv4_v4ToBytes {a : Nat} (h : a < 2 ^ 32) :
    parseIpv4 (v4ToBytes a) = some a := by
  have hsp : splitSepB dotB (v4ToBytes a) =
      [decToBytes (a / 16777216 % 256), decToBytes (a / 65536 % 256),
       decToBytes (a / 256 % 256), decToBytes (a % 256)] := by
    unfold v4ToBytes
    apply splitSepB_joinSep
    · simp
    · intro t ht
      simp only [List.mem_cons, List.not_mem_nil, or_false] at ht
      rcases ht with rfl | rfl | rfl | rfl
      all_goals exact (decToBytes_not_mem _).1
  have hred : parseIpv4 (v4ToBytes a) =
      (match parseOctet (decToBytes (a / 16777216 % 256)),
             parseOctet (decToBytes (a / 65536 % 256)),
             parseOctet (decToBytes (a / 256 % 256)),
             parseOctet (decToBytes (a % 256)) with
        | some o1, some o2, some o3, some o4 =>
          some (((o1 * 256 + o2) * 256 + o3) * 256 + o4)
        | _, _, _, _ => none) := by
    unfold parseIpv4
    rw [hsp]
  have m1 : a / 16777216 % 256 ≤ 255 := by omega
  have m2 : a / 65536 % 256 ≤ 255 := by omega
  have m3 : a / 256 % 256 ≤ 255 := by omega
  have m4 : a % 256 ≤ 255 := by omega
  rw [parseOctet_decToBytes m1, parseOctet_decToBytes m2,
    parseOctet_decToBytes m3, parseOctet_decToBytes m4] at hred
  rw [hred]
  show some (((a / 16777216 % 256 * 256 + a / 65536 % 256) * 256
    + a / 256 % 256) * 256 + a % 256) = some a
  rw [v4_decompose h]

theorem segsToNat_segsOfV6 {a : Nat} (h : a < 2 ^ 128) :
    segsToNat (segsOfV6 a) = a := by
  have e1 : a / 2 ^ 112 % 2 ^ 16 * 2 ^ 16 + a / 2 ^ 96 % 2 ^ 16 =
      a / 2 ^ 96 % 2 ^ 32 := combine_div_mod a 96 16 16
  have e2 : a / 2 ^ 96 % 2 ^ 32 * 2 ^ 16 + a / 2 ^ 80 % 2 ^ 16 =
      a / 2 ^ 80 % 2 ^ 48 := combine_div_mod a 80 32 16
  have e3 : a / 2 ^ 80 % 2 ^ 48 * 2 ^ 16 + a / 2 ^ 64 % 2 ^ 16 =
      a / 2 ^ 64 % 2 ^ 64 := combine_div_mod a 64 48 16
  have e4 : a / 2 ^ 64 % 2 ^ 64 * 2 ^ 16 + a / 2 ^ 48 % 2 ^ 16 =
      a / 2 ^ 48 % 2 ^ 80 := combine_div_mod a 48 64 16
  have e5 : a / 2 ^ 48 % 2 ^ 80 * 2 ^ 16 + a / 2 ^ 32 % 2 ^ 16 =
      a / 2 ^ 32 % 2 ^ 96 := combine_div_mod a 32 80 16
  have e6 : a / 2 ^ 32 % 2 ^ 96 * 2 ^ 16 + a / 2 ^ 16 % 2 ^ 16 =
      a / 2 ^ 16 % 2 ^ 112 := combine_div_mod a 16 96 16
  have e7 : a / 2 ^ 16 % 2 ^ 112 * 2 ^ 16 + a % 2 ^ 16 =
      a % 2 ^ 128 := by
    have := combine_div_mod a 0 112 16
    simpa using this
  show (((((((0 * 65536 + a / 2 ^ 112 % 65536) * 65536 + a / 2 ^ 96 % 65536) * 65536
    + a / 2 ^ 80 % 65536) * 65536 + a / 2 ^ 64 % 65536) * 65536 + a / 2 ^ 48 % 65536)
    * 65536 + a / 2 ^ 32 % 65536) * 65536 + a / 2 ^ 16 % 65536) * 65536 + a % 65536 = a
  rw [show (65536 : Nat) = 2 ^ 16 by norm_num]
  rw [Nat.zero_mul, Nat.zero_add, e1, e2, e3, e4, e5, e6, e7, Nat.mod_eq_of_lt h]

theorem foldl_base_lt (b : Nat) :
    ∀ (L : List Nat) (acc : Nat), (∀ g ∈ L, g < b) →
      L.foldl (fun acc g => acc * b + g) acc < (acc + 1) * b ^ L.length := by
  intro L
  induction L with
  | nil =>
    intro acc _
    simp
  | cons g L ih =>
    intro acc hall
    have hg : g < b := hall g (List.mem_cons_self _ _)
    have h1 := ih (acc * b + g) (fun x hx => hall x (List.mem_cons_of_mem _ hx))
    have h2 : (acc * b + g + 1) * b ^ L.length ≤ (acc + 1) * b ^ (L.length + 1) := by
      have hx : acc * b + g + 1 ≤ (acc + 1) * b := by
        have : (acc + 1) * b = acc * b + b := by ring
        omega
      calc (acc * b + g + 1) * b ^ L.length ≤ (acc + 1) * b * b ^ L.length :=
            Nat.mul_le_mul_right _ hx
        _ = (acc + 1) * b ^ (L.length + 1) := by ring
    have h3 : (g :: L).foldl (fun acc g => acc * b + g) acc =
        L.foldl (fun acc g => acc * b + g) (acc * b + g) := rfl
    rw [h3, List.length_cons]
    omega

theorem hexDigitVal_lt {c : Nat} (h : isHexB c = true) : hexDigitVal c < 16 := by
  unfold isHexB isDigitB isHexLetterB at h
  unfold hexDigitVal isDigitB
  simp only [Bool.or_eq_true, Bool.and_eq_true, decide_eq_true_eq] at h
  by_cases hd : (48 ≤ c && c ≤ 57) = true
  · rw [if_pos hd]
    simp only [Bool.and_eq_true, decide_eq_true_eq] at hd
    omega
  · rw [if_neg hd]
    simp only [Bool.and_eq_true, decide_eq_true_eq, not_and] at hd
    by_cases h97 : 97 ≤ c
    · rw [if_pos h97]
      omega
    · rw [if_neg h97]
      omega

theorem hexVal_lt {tok : List Nat} (hhex : tok.all isHexB = true)
    (hlen : tok.length ≤ 4) : hexVal tok < 65536 := by
  unfold hexVal
  have hmap : tok.foldl (fun acc b => acc * 16 + hexDigitVal b) 0 =
      (tok.map hexDigitVal).foldl (fun acc g => acc * 16 + g) 0 := by
    rw [List.foldl_map]
  rw [hmap]
  have hb := foldl_base_lt 16 (tok.map hexDigitVal) 0 (by
    intro g hg
    rw [List.mem_map] at hg
    obtain ⟨c, hc, rfl⟩ := hg
    exact hexDigitVal_lt (List.all_eq_true.mp hhex c hc))
  have hpow : (16 : Nat) ^ (tok.map hexDigitVal).length ≤ 16 ^ 4 := by
    rw [List.length_map]
    exact Nat.pow_le_pow_right (by norm_num) hlen
  have : (16 : Nat) ^ 4 = 65536 := by norm_num
  omega

theorem parseIpv4_lt {s : List Nat} {a : Nat} (h : parseIpv4 s = some a) :
    a < 2 ^ 32 := by
  obtain ⟨t1, t2, t3, t4, o1, o2, o3, o4, _, h1, h2, h3, h4, hval⟩ := parseIpv4_inv h
  have b1 := (parseOctet_some h1).2.2.2.1
  have b2 := (parseOctet_some h2).2.2.2.1
  have b3 := (parseOctet_some h3).2.2.2.1
  have b4 := (parseOctet_some h4).2.2.2.1
  have e1 : o1 = decVal t1 := (parseOctet_some h1).2.2.2.2
  have e2 : o2 = decVal t2 := (parseOctet_some h2).2.2.2.2
  have e3 : o3 = decVal t3 := (parseOctet_some h3).2.2.2.2
  have e4 : o4 = decVal t4 := (parseOctet_some h4).2.2.2.2
  rw [hval]
  rw [← e1] at b1
  rw [← e2] at b2
  rw [← e3] at b3
  rw [← e4] at b4
  have : (2 : Nat) ^ 32 = 4294967296 := by norm_num
  omega

theorem parseV6Groups_bound (flag : Bool) :
    ∀ toks gs, parseV6Groups flag toks = some gs → ∀ g ∈ gs, g < 65536 := by
  intro toks
  induction toks with
  | nil =>
    intro gs h g hg
    unfold parseV6Groups at h
    injection h with h'
    rw [← h'] at hg
    cases hg
  | cons t0 ts ih =>
    intro gs h g hg
    cases ts with
    | nil =>
      unfold parseV6Groups at h
      by_cases hc : flag ∧ t0.contains dotB = true
      · rw [if_pos hc] at h
        cases h4 : parseIpv4 t0 with
        | none => rw [h4] at h; cases h
        | some x =>
          rw [h4] at h
          injection h with h'
          rw [← h'] at hg
          have hx : x < 2 ^ 32 := parseIpv4_lt h4
          simp only [List.mem_cons, List.not_mem_nil, or_false] at hg
          have h32 : (2 : Nat) ^ 32 = 4294967296 := by norm_num
          rcases hg with rfl | rfl <;> omega
      · rw [if_neg hc] at h
        cases hgr : parseHexGroup t0 with
        | none => rw [hgr] at h; cases h
        | some x =>
          rw [hgr] at h
          injection h with h'
          rw [← h'] at hg
          simp only [List.mem_cons, List.not_mem_nil, or_false] at hg
          subst hg
          obtain ⟨_, hhex, hlen, hval⟩ := parseHexGroup_some hgr
          rw [hval]
          exact hexVal_lt hhex hlen
    | cons t1 ts1 =>
      unfold parseV6Groups at h
      cases hgr : parseHexGroup t0 with
      | none => rw [hgr] at h; cases h
      | some x =>
        cases hgs : parseV6Groups flag (t1 :: ts1) with
        | none => rw [hgr, hgs] at h; cases h
        | some gs' =>
          rw [hgr, hgs] at h
          injection h with h'
          rw [← h'] at hg
          rcases List.mem_cons.mp hg with rfl | hg'
          · obtain ⟨_, hhex, hlen, hval⟩ := parseHexGroup_some hgr
            rw [hval]
            exact hexVal_lt hhex hlen
          · exact ih gs' hgs g hg'

theorem segsToNat_lt {gs : List Nat} (hlen : gs.length = 8)
    (hall : ∀ g ∈ gs, g < 65536) : segsToNat gs < 2 ^ 128 := by
  unfold segsToNat
  have hb := foldl_base_lt 65536 gs 0 hall
  rw [hlen] at hb
  have : (65536 : Nat) ^ 8 = 2 ^ 128 := by norm_num
  omega

/-! ## C6: the zero-run chosen by the display -/

theorem zeroRunLen_spec (segs : List Nat) (i : Nat) :
    (segs.drop i).take (zeroRunLen segs i) = List.replicate (zeroRunLen segs i) 0 ∧
    zeroRunLen segs i ≤ (segs.drop i).length := by
  unfold zeroRunLen
  constructor
  · have hpre := List.takeWhile_prefix (l := segs.drop i) (p := fun g => g == 0)
    have htake : (segs.drop i).take ((segs.drop i).takeWhile (fun g => g == 0)).length =
        (segs.drop i).takeWhile (fun g => g == 0) :=
      (List.prefix_iff_eq_take.mp hpre).symm
    rw [htake, List.eq_replicate_iff]
    refine ⟨rfl, ?_⟩
    intro b hb
    have := List.mem_takeWhile_imp hb
    simpa using this
  · exact (List.takeWhile_prefix _).length_le

theorem bestZeroRun_sound (segs : List Nat) {i L : Nat}
    (h : bestZeroRun segs = some (i, L)) :
    i < segs.length ∧ 2 ≤ L ∧ L = zeroRunLen segs i := by
  unfold bestZeroRun at h
  suffices hgen : ∀ (is : List Nat) (acc : Option (Nat × Nat)),
      (∀ i' L', acc = some (i', L') → i' < segs.length ∧ 2 ≤ L' ∧ L' = zeroRunLen segs i') →
      (∀ x ∈ is, x < segs.length) →
      ∀ i' L', is.foldl
        (fun best i =>
          let L := zeroRunLen segs i
          match best with
          | none => if L ≥ 2 then some (i, L) else none
          | some q => if L > q.2 then some (i, L) else best) acc = some (i', L') →
        i' < segs.length ∧ 2 ≤ L' ∧ L' = zeroRunLen segs i' by
    exact hgen (List.range segs.length) none (by intro i' L' hx; cases hx)
      (by intro x hx; exact List.mem_range.mp hx) i L h
  intro is
  induction is with
  | nil =>
    intro acc hacc _ i' L' h'
    exact hacc i' L' h'
  | cons x is ih =>
    intro acc hacc hmem i' L' h'
    refine ih _ ?_ (fun y hy => hmem y (List.mem_cons_of_mem _ hy)) i' L' h'
    intro i'' L'' hstep
    have hx : x < segs.length := hmem x (List.mem_cons_self _ _)
    cases acc with
    | none =>
      by_cases h2 : zeroRunLen segs x ≥ 2
      · simp only [h2, if_pos] at hstep
        injection hstep with hs
        simp only [Prod.mk.injEq] at hs
        obtain ⟨rfl, rfl⟩ := hs
        exact ⟨hx, h2, rfl⟩
      · simp only [if_neg h2] at hstep
        cases hstep
    | some q =>
      by_cases h2 : zeroRunLen segs x > q.2
      · simp only [if_pos h2] at hstep
        injection hstep with hs
        simp only [Prod.mk.injEq] at hs
        obtain ⟨rfl, rfl⟩ := hs
        have hq := hacc q.1 q.2 rfl
        exact ⟨hx, by omega, rfl⟩
      · simp only [if_neg h2] at hstep
        exact hacc i'' L'' hstep

/-! ## C6: locating the `::` in a rendered address -/

theorem findDC_token_prefix {t r : List Nat} (h : colonB ∉ t) :
    findDC (t ++ colonB :: colonB :: r) = some (t, r) := by
  induction t with
  | nil =>
    show findDC (colonB :: colonB :: r) = some ([], r)
    unfold findDC
    rw [if_pos ⟨rfl, rfl⟩]
  | cons x t ih =>
    have hx : ¬ x = colonB := fun hh => h (hh ▸ List.mem_cons_self x t)
    cases hsp : t ++ colonB :: colonB :: r with
    | nil => simp at hsp
    | cons y ys =>
      show findDC (x :: (t ++ colonB :: colonB :: r)) = some (x :: t, r)
      rw [hsp]
      unfold findDC
      rw [if_neg (fun hc => hx hc.1), ← hsp,
        ih (fun hm => h (List.mem_cons_of_mem _ hm))]
      rfl

theorem findDC_skip_token {t w : List Nat} (hcol : colonB ∉ t)
    (hw : w.head? ≠ some colonB) :
    findDC (t ++ colonB :: w) =
      (findDC w).map (fun q => (t ++ colonB :: q.1, q.2)) := by
  induction t with
  | nil =>
    cases w with
    | nil => rfl
    | cons y ys =>
      have hy : ¬ y = colonB := by
        intro hh
        exact hw (by rw [hh]; rfl)
      show findDC (colonB :: y :: ys) = _
      simp only [findDC]
      rw [if_neg (fun hc => hy hc.2)]
      cases findDC (y :: ys) <;> rfl
  | cons x t ih =>
    have hx : ¬ x = colonB := fun hh => hcol (hh ▸ List.mem_cons_self x t)
    cases hsp : t ++ colonB :: w with
    | nil => simp at hsp
    | cons y ys =>
      show findDC (x :: (t ++ colonB :: w)) = _
      rw [hsp]
      simp only [findDC]
      rw [if_neg (fun hc => hx hc.1), ← hsp,
        ih (fun hm => hcol (List.mem_cons_of_mem _ hm))]
      rw [Option.map_map]
      cases findDC w <;> rfl

theorem findDC_of_no_colon {t : List Nat} (h : colonB ∉ t) : findDC t = none := by
  induction t with
  | nil => rfl
  | cons x t ih =>
    have hx : ¬ x = colonB := fun hh => h (hh ▸ List.mem_cons_self x t)
    cases t with
    | nil => rfl
    | cons y ys =>
      unfold findDC
      rw [if_neg (fun hc => hx hc.1), ih (fun hm => h (List.mem_cons_of_mem _ hm))]
      rfl

theorem head_of_joinSep_app {u : List Nat} (us : List (List Nat)) (X : List Nat)
    (hu : u ≠ []) (hc : colonB ∉ u) :
    (joinSep colonB (u :: us) ++ X).head? ≠ some colonB := by
  cases u with
  | nil => exact absurd rfl hu
  | cons c cs =>
    have hcne : c ≠ colonB := fun hh => hc (hh ▸ List.mem_cons_self c cs)
    cases us with
    | nil =>
      show ((c :: cs) ++ X).head? ≠ some colonB
      intro hh
      injection hh with hh'
      exact hcne hh'
    | cons v vs =>
      show (((c :: cs) ++ colonB :: joinSep colonB (v :: vs)) ++ X).head? ≠ some colonB
      intro hh
      injection hh with hh'
      exact hcne hh'

theorem findDC_joinSep_append (r : List Nat) :
    ∀ toks : List (List Nat), (∀ t ∈ toks, t ≠ [] ∧ colonB ∉ t) →
      findDC (joinSep colonB toks ++ colonB :: colonB :: r) =
        some (joinSep colonB toks, r) := by
  intro toks
  induction toks with
  | nil =>
    intro _
    show findDC (colonB :: colonB :: r) = some ([], r)
    unfold findDC
    rw [if_pos ⟨rfl, rfl⟩]
  | cons t ts ih =>
    intro hall
    cases ts with
    | nil =>
      exact findDC_token_prefix (hall t (List.mem_cons_self _ _)).2
    | cons u us =>
      have hassoc : joinSep colonB (t :: u :: us) ++ colonB :: colonB :: r =
          t ++ colonB :: (joinSep colonB (u :: us) ++ colonB :: colonB :: r) := by
        show (t ++ colonB :: joinSep colonB (u :: us)) ++ colonB :: colonB :: r = _
        simp [List.append_assoc]
      rw [hassoc,
        findDC_skip_token (hall t (List.mem_cons_self _ _)).2
          (head_of_joinSep_app us (colonB :: colonB :: r)
            (hall u (List.mem_cons_of_mem _ (List.mem_cons_self _ _))).1
            (hall u (List.mem_cons_of_mem _ (List.mem_cons_self _ _))).2),
        ih (fun x hx => hall x (List.mem_cons_of_mem _ hx))]
      rfl

theorem findDC_joinSep_none :
    ∀ toks : List (List Nat), (∀ t ∈ toks, t ≠ [] ∧ colonB ∉ t) →
      findDC (joinSep colonB toks) = none := by
  intro toks
  induction toks with
  | nil => intro _; rfl
  | cons t ts ih =>
    intro hall
    cases ts with
    | nil => exact findDC_of_no_colon (hall t (List.mem_cons_self _ _)).2
    | cons u us =>
      show findDC (t ++ colonB :: joinSep colonB (u :: us)) = none
      have hjoin : joinSep colonB (u :: us) =
          joinSep colonB (u :: us) ++ [] := by simp
      rw [show t ++ colonB :: joinSep colonB (u :: us) =
          t ++ colonB :: (joinSep colonB (u :: us) ++ []) by simp]
      rw [findDC_skip_token (hall t (List.mem_cons_self _ _)).2
        (head_of_joinSep_app us []
          (hall u (List.mem_cons_of_mem _ (List.mem_cons_self _ _))).1
          (hall u (List.mem_cons_of_mem _ (List.mem_cons_self _ _))).2)]
      rw [show joinSep colonB (u :: us) ++ [] = joinSep colonB (u :: us) by simp]
      rw [ih (fun x hx => hall x (List.mem_cons_of_mem _ hx))]
      rfl

/-! ## C6: parsing a rendered IPv6 address -/

theorem contains_false_of_not_mem {l : List Nat} {a : Nat} (h : a ∉ l) :
    l.contains a = false := by simpa using h

theorem contains_true_of_mem {l : List Nat} {a : Nat} (h : a ∈ l) :
    l.contains a = true := by simpa using h

theorem parseV6Groups_map_hex (flag : Bool) :
    ∀ gs : List Nat, (∀ g ∈ gs, g < 65536) →
      parseV6Groups flag (gs.map hexToBytes) = some gs := by
  intro gs
  induction gs with
  | nil => intro _; rfl
  | cons g gs ih =>
    intro hall
    have hg : g < 65536 := hall g (List.mem_cons_self _ _)
    cases gs with
    | nil =>
      show parseV6Groups flag [hexToBytes g] = some [g]
      have hcon : (hexToBytes g).contains dotB = false :=
        contains_false_of_not_mem (hexToBytes_not_mem g).1
      have hstep : parseV6Groups flag [hexToBytes g] =
          if flag ∧ (hexToBytes g).contains dotB = true then
            (parseIpv4 (hexToBytes g)).map (fun a => [a / 65536, a % 65536])
          else (parseHexGroup (hexToBytes g)).map (fun x => [x]) := rfl
      rw [hstep, if_neg (fun hc => by rw [hcon] at hc; cases hc.2),
        parseHexGroup_hexToBytes hg]
      rfl
    | cons g2 gs2 =>
      have hstep : parseV6Groups flag
          (hexToBytes g :: hexToBytes g2 :: gs2.map hexToBytes) =
          (match parseHexGroup (hexToBytes g),
                 parseV6Groups flag (hexToBytes g2 :: gs2.map hexToBytes) with
            | some x, some xs => some (x :: xs)
            | _, _ => none) := rfl
      show parseV6Groups flag (hexToBytes g :: hexToBytes g2 :: gs2.map hexToBytes) =
        some (g :: g2 :: gs2)
      rw [hstep, parseHexGroup_hexToBytes hg,
        show (hexToBytes g2 :: gs2.map hexToBytes) = (g2 :: gs2).map hexToBytes from rfl,
        ih (fun x hx => hall x (List.mem_cons_of_mem _ hx))]

theorem segsOfV6_lt (a : Nat) : ∀ g ∈ segsOfV6 a, g < 65536 := by
  intro g hg
  unfold segsOfV6 at hg
  simp only [List.mem_cons, List.not_mem_nil, or_false] at hg
  rcases hg with rfl | rfl | rfl | rfl | rfl | rfl | rfl | rfl <;> omega

theorem parseIpv6_of_findDC {s l r : List Nat} (h : findDC s = some (l, r)) :
    parseIpv6 s =
      (match parseV6Groups false (if l.isEmpty then [] else splitSepB colonB l),
             parseV6Groups true (if r.isEmpty then [] else splitSepB colonB r) with
        | some lg, some rg =>
          if lg.length + rg.length ≤ 7 then
            some (segsToNat (lg ++ List.replicate (8 - lg.length - rg.length) 0 ++ rg))
          else none
        | _, _ => none) := by
  unfold parseIpv6
  rw [h]

theorem parseIpv6_of_findDC_none {s : List Nat} (h : findDC s = none) :
    parseIpv6 s =
      (match parseV6Groups true (splitSepB colonB s) with
        | some gs => if gs.length = 8 then some (segsToNat gs) else none
        | none => none) := by
  unfold parseIpv6
  rw [h]

theorem splitSepB_joinSep_if (toks : List (List Nat))
    (hall : ∀ t ∈ toks, t ≠ [] ∧ colonB ∉ t) :
    (if (joinSep colonB toks).isEmpty then []
     else splitSepB colonB (joinSep colonB toks)) = toks := by
  cases toks with
  | nil => rfl
  | cons t ts =>
    have ht := hall t (List.mem_cons_self _ _)
    have hne : (joinSep colonB (t :: ts)).isEmpty = false := by
      cases ts with
      | nil =>
        cases t with
        | nil => exact absurd rfl ht.1
        | cons c cs => rfl
      | cons u us =>
        cases htl : t ++ colonB :: joinSep colonB (u :: us) with
        | nil => simp at htl
        | cons c cs =>
          show (t ++ colonB :: joinSep colonB (u :: us)).isEmpty = false
          rw [htl]
          rfl
    rw [hne]
    simp only [Bool.false_eq_true, if_false]
    exact splitSepB_joinSep colonB (t :: ts) (by simp)
      (fun x hx => (hall x hx).2)

theorem dotB_mem_v4ToBytes (a : Nat) : dotB ∈ v4ToBytes a := by
  show dotB ∈ decToBytes (a / 16777216 % 256)
    ++ dotB :: joinSep dotB [decToBytes (a / 65536 % 256),
      decToBytes (a / 256 % 256), decToBytes (a % 256)]
  exact List.mem_append.mpr (Or.inr (List.mem_cons_self _ _))

theorem colonB_not_mem_v4ToBytes (a : Nat) : colonB ∉ v4ToBytes a := by
  intro hm
  rcases v4ToBytes_chars a colonB hm with hd | hd
  · exact absurd (isDigitB_vals hd).2.2 (by simp)
  · exact absurd hd (by decide)

theorem slashB_not_mem_v4ToBytes (a : Nat) : slashB ∉ v4ToBytes a := by
  intro hm
  rcases v4ToBytes_chars a slashB hm with hd | hd
  · exact absurd (isDigitB_vals hd).2.1 (by simp)
  · exact absurd hd (by decide)

theorem parseIpv6_mapped {a : Nat} (h128 : a < 2 ^ 128)
    (hm : (segsOfV6 a).take 6 = [0, 0, 0, 0, 0, 65535]) :
    parseIpv6 (colonB :: colonB :: bytesOf ['f', 'f', 'f', 'f']
      ++ colonB :: v4ToBytes (a % 4294967296)) = some a := by
  have hm' : [a / 2 ^ 112 % 65536, a / 2 ^ 96 % 65536, a / 2 ^ 80 % 65536,
      a / 2 ^ 64 % 65536, a / 2 ^ 48 % 65536, a / 2 ^ 32 % 65536]
      = [0, 0, 0, 0, 0, 65535] := hm
  simp only [List.cons.injEq, and_true] at hm'
  obtain ⟨h0, h1, h2, h3, h4, h5⟩ := hm'
  have hdc : findDC ((colonB :: colonB :: bytesOf ['f', 'f', 'f', 'f'])
      ++ colonB :: v4ToBytes (a % 4294967296))
      = some ([], bytesOf ['f', 'f', 'f', 'f'] ++ colonB :: v4ToBytes (a % 4294967296)) := rfl
  rw [parseIpv6_of_findDC hdc]
  have hie : (bytesOf ['f', 'f', 'f', 'f']
      ++ colonB :: v4ToBytes (a % 4294967296)).isEmpty = false := rfl
  have hre : (if (bytesOf ['f', 'f', 'f', 'f']
        ++ colonB :: v4ToBytes (a % 4294967296)).isEmpty then []
      else splitSepB colonB (bytesOf ['f', 'f', 'f', 'f']
        ++ colonB :: v4ToBytes (a % 4294967296)))
      = [bytesOf ['f', 'f', 'f', 'f'], v4ToBytes (a % 4294967296)] := by
    rw [hie]
    simp only [Bool.false_eq_true, if_false]
    rw [splitSepB_append_sep (by decide),
      splitSepB_not_mem (colonB_not_mem_v4ToBytes _)]
  rw [hre]
  have hl0 : (if ([] : List Nat).isEmpty then ([] : List (List Nat))
      else splitSepB colonB []) = [] := rfl
  rw [hl0]
  have hff : parseHexGroup (bytesOf ['f', 'f', 'f', 'f']) = some 65535 := by decide
  have hlast : parseV6Groups true [v4ToBytes (a % 4294967296)] =
      some [a % 4294967296 / 65536, a % 4294967296 % 65536] := by
    have hst : parseV6Groups true [v4ToBytes (a % 4294967296)] =
        if (true : Bool) ∧ (v4ToBytes (a % 4294967296)).contains dotB then
          (parseIpv4 (v4ToBytes (a % 4294967296))).map (fun x => [x / 65536, x % 65536])
        else (parseHexGroup (v4ToBytes (a % 4294967296))).map (fun g => [g]) := rfl
    rw [hst, if_pos ⟨rfl, contains_true_of_mem (dotB_mem_v4ToBytes _)⟩,
      parseIpv4_v4ToBytes (show a % 4294967296 < 2 ^ 32 by
        have : (2 : Nat) ^ 32 = 4294967296 := by norm_num
        omega)]
    rfl
  have hpg : parseV6Groups true [bytesOf ['f', 'f', 'f', 'f'],
      v4ToBytes (a % 4294967296)]
      = some [65535, a % 4294967296 / 65536, a % 4294967296 % 65536] := by
    have hstep : parseV6Groups true [bytesOf ['f', 'f', 'f', 'f'],
        v4ToBytes (a % 4294967296)] =
        (match parseHexGroup (bytesOf ['f', 'f', 'f', 'f']),
               parseV6Groups true [v4ToBytes (a % 4294967296)] with
          | some x, some xs => some (x :: xs)
          | _, _ => none) := rfl
    rw [hstep, hff, hlast]
  have hnil : parseV6Groups false ([] : List (List Nat)) = some [] := rfl
  rw [hnil, hpg]
  show some (segsToNat [0, 0, 0, 0, 0, 65535,
    a % 4294967296 / 65536, a % 4294967296 % 65536]) = some a
  have e6 : a % 4294967296 / 65536 = a / 65536 % 65536 := by
    rw [show (4294967296 : Nat) = 65536 * 65536 from rfl]
    exact Nat.mod_mul_right_div_self a 65536 65536
  have e7 : a % 4294967296 % 65536 = a % 65536 :=
    Nat.mod_mod_of_dvd a ⟨65536, rfl⟩
  rw [e6, e7]
  have hlist : [0, 0, 0, 0, 0, 65535, a / 65536 % 65536, a % 65536]
      = segsOfV6 a := by
    unfold segsOfV6
    rw [h0, h1, h2, h3, h4, h5]
    norm_num
  rw [hlist, segsToNat_segsOfV6 h128]

theorem parseIpv6_run {a : Nat} (h128 : a < 2 ^ 128) {i L : Nat}
    (hrun : bestZeroRun (segsOfV6 a) = some (i, L)) :
    parseIpv6 (joinSep colonB (((segsOfV6 a).take i).map hexToBytes)
      ++ colonB :: colonB :: joinSep colonB (((segsOfV6 a).drop (i + L)).map hexToBytes))
      = some a := by
  obtain ⟨hi, hL2, hLval⟩ := bestZeroRun_sound (segsOfV6 a) hrun
  have hlen8 : (segsOfV6 a).length = 8 := rfl
  have hspec := zeroRunLen_spec (segsOfV6 a) i
  rw [← hLval] at hspec
  have hiL : i + L ≤ 8 := by
    have h2 := hspec.2
    rw [List.length_drop, hlen8] at h2
    omega
  have hltoks : ∀ t ∈ ((segsOfV6 a).take i).map hexToBytes, t ≠ [] ∧ colonB ∉ t := by
    intro t ht
    rw [List.mem_map] at ht
    obtain ⟨g, _, rfl⟩ := ht
    exact ⟨hexToBytes_ne_nil g, (hexToBytes_not_mem g).2.2⟩
  have hrtoks : ∀ t ∈ ((segsOfV6 a).drop (i + L)).map hexToBytes, t ≠ [] ∧ colonB ∉ t := by
    intro t ht
    rw [List.mem_map] at ht
    obtain ⟨g, _, rfl⟩ := ht
    exact ⟨hexToBytes_ne_nil g, (hexToBytes_not_mem g).2.2⟩
  have hdc := findDC_joinSep_append
    (joinSep colonB (((segsOfV6 a).drop (i + L)).map hexToBytes))
    (((segsOfV6 a).take i).map hexToBytes) hltoks
  rw [parseIpv6_of_findDC hdc,
    splitSepB_joinSep_if _ hltoks, splitSepB_joinSep_if _ hrtoks,
    parseV6Groups_map_hex false _ (fun g hg => segsOfV6_lt a g (List.take_subset _ _ hg)),
    parseV6Groups_map_hex true _ (fun g hg => segsOfV6_lt a g (List.drop_subset _ _ hg))]
  show (if ((segsOfV6 a).take i).length + ((segsOfV6 a).drop (i + L)).length ≤ 7 then
      some (segsToNat ((segsOfV6 a).take i
        ++ List.replicate (8 - ((segsOfV6 a).take i).length
            - ((segsOfV6 a).drop (i + L)).length) 0
        ++ (segsOfV6 a).drop (i + L)))
    else none) = some a
  have hlt : ((segsOfV6 a).take i).length = i := by
    rw [List.length_take, hlen8]
    omega
  have hdl : ((segsOfV6 a).drop (i + L)).length = 8 - (i + L) := by
    rw [List.length_drop, hlen8]
  rw [hlt, hdl, if_pos (by omega)]
  have hmid : List.replicate (8 - i - (8 - (i + L))) 0 = ((segsOfV6 a).drop i).take L := by
    rw [show 8 - i - (8 - (i + L)) = L by omega]
    exact hspec.1.symm
  rw [hmid, List.append_assoc]
  have hdd : (segsOfV6 a).drop (i + L) = ((segsOfV6 a).drop i).drop L := by
    rw [List.drop_drop, Nat.add_comm]
  rw [hdd, List.take_append_drop, List.take_append_drop, segsToNat_segsOfV6 h128]

theorem parseIpv6_full {a : Nat} (h128 : a < 2 ^ 128) :
    parseIpv6 (joinSep colonB ((segsOfV6 a).map hexToBytes)) = some a := by
  have hall : ∀ t ∈ (segsOfV6 a).map hexToBytes, t ≠ [] ∧ colonB ∉ t := by
    intro t ht
    rw [List.mem_map] at ht
    obtain ⟨g, _, rfl⟩ := ht
    exact ⟨hexToBytes_ne_nil g, (hexToBytes_not_mem g).2.2⟩
  rw [parseIpv6_of_findDC_none (findDC_joinSep_none _ hall),
    splitSepB_joinSep colonB _ (by simp [segsOfV6]) (fun t ht => (hall t ht).2),
    parseV6Groups_map_hex true _ (segsOfV6_lt a)]
  show (if (segsOfV6 a).length = 8 then some (segsToNat (segsOfV6 a)) else none) = some a
  rw [if_pos (show (segsOfV6 a).length = 8 from rfl), segsToNat_segsOfV6 h128]

theorem parseIpv6_v6ToBytes {a : Nat} (h128 : a < 2 ^ 128) :
    parseIpv6 (v6ToBytes a) = some a := by
  by_cases hm : (segsOfV6 a).take 6 = [0, 0, 0, 0, 0, 65535]
  · have hv : v6ToBytes a = colonB :: colonB :: bytesOf ['f', 'f', 'f', 'f']
        ++ colonB :: v4ToBytes (a % 4294967296) := by
      simp only [v6ToBytes]
      rw [if_pos hm]
    rw [hv]
    exact parseIpv6_mapped h128 hm
  · cases hbr : bestZeroRun (segsOfV6 a) with
    | none =>
      have hv : v6ToBytes a = joinSep colonB ((segsOfV6 a).map hexToBytes) := by
        simp only [v6ToBytes]
        rw [if_neg hm, hbr]
      rw [hv]
      exact parseIpv6_full h128
    | some q =>
      obtain ⟨i, L⟩ := q
      have hv : v6ToBytes a = joinSep colonB (((segsOfV6 a).take i).map hexToBytes)
          ++ colonB :: colonB :: joinSep colonB (((segsOfV6 a).drop (i + L)).map hexToBytes) := by
        simp only [v6ToBytes]
        rw [if_neg hm, hbr]
      rw [hv]
      exact parseIpv6_run h128 hbr

theorem colonB_mem_v6ToBytes (a : Nat) : colonB ∈ v6ToBytes a := by
  by_cases hm : (segsOfV6 a).take 6 = [0, 0, 0, 0, 0, 65535]
  · have hv : v6ToBytes a = colonB :: colonB :: bytesOf ['f', 'f', 'f', 'f']
        ++ colonB :: v4ToBytes (a % 4294967296) := by
      simp only [v6ToBytes]
      rw [if_pos hm]
    rw [hv]
    exact List.mem_append.mpr (Or.inl (List.mem_cons_self _ _))
  · cases hbr : bestZeroRun (segsOfV6 a) with
    | none =>
      have hv : v6ToBytes a = joinSep colonB ((segsOfV6 a).map hexToBytes) := by
        simp only [v6ToBytes]
        rw [if_neg hm, hbr]
      rw [hv]
      show colonB ∈ hexToBytes (a / 2 ^ 112 % 65536)
        ++ colonB :: joinSep colonB [hexToBytes (a / 2 ^ 96 % 65536),
          hexToBytes (a / 2 ^ 80 % 65536), hexToBytes (a / 2 ^ 64 % 65536),
          hexToBytes (a / 2 ^ 48 % 65536), hexToBytes (a / 2 ^ 32 % 65536),
          hexToBytes (a / 2 ^ 16 % 65536), hexToBytes (a % 65536)]
      exact List.mem_append.mpr (Or.inr (List.mem_cons_self _ _))
    | some q =>
      obtain ⟨i, L⟩ := q
      have hv : v6ToBytes a = joinSep colonB (((segsOfV6 a).take i).map hexToBytes)
          ++ colonB :: colonB :: joinSep colonB (((segsOfV6 a).drop (i + L)).map hexToBytes) := by
        simp only [v6ToBytes]
        rw [if_neg hm, hbr]
      rw [hv]
      exact List.mem_append.mpr (Or.inr (List.mem_cons_self _ _))

theorem slashB_not_mem_v6ToBytes (a : Nat) : slashB ∉ v6ToBytes a := by
  have hhex : ∀ t ∈ (segsOfV6 a).map hexToBytes, slashB ∉ t := by
    intro t ht
    rw [List.mem_map] at ht
    obtain ⟨g, _, rfl⟩ := ht
    exact (hexToBytes_not_mem g).2.1
  by_cases hm : (segsOfV6 a).take 6 = [0, 0, 0, 0, 0, 65535]
  · have hv : v6ToBytes a = colonB :: colonB :: bytesOf ['f', 'f', 'f', 'f']
        ++ colonB :: v4ToBytes (a % 4294967296) := by
      simp only [v6ToBytes]
      rw [if_pos hm]
    rw [hv]
    intro hmem
    rcases List.mem_append.mp hmem with h1 | h2
    · rcases List.mem_cons.mp h1 with h | h
      · exact absurd h (by decide)
      rcases List.mem_cons.mp h with h | h
      · exact absurd h (by decide)
      · revert h
        decide
    · rcases List.mem_cons.mp h2 with h | h
      · exact absurd h (by decide)
      · exact slashB_not_mem_v4ToBytes _ h
  · cases hbr : bestZeroRun (segsOfV6 a) with
    | none =>
      have hv : v6ToBytes a = joinSep colonB ((segsOfV6 a).map hexToBytes) := by
        simp only [v6ToBytes]
        rw [if_neg hm, hbr]
      rw [hv]
      intro hmem
      rcases mem_joinSep _ _ hmem with ⟨t, ht, hbt⟩ | hs
      · exact hhex t ht hbt
      · exact absurd hs (by decide)
    | some q =>
      obtain ⟨i, L⟩ := q
      have hv : v6ToBytes a = joinSep colonB (((segsOfV6 a).take i).map hexToBytes)
          ++ colonB :: colonB :: joinSep colonB (((segsOfV6 a).drop (i + L)).map hexToBytes) := by
        simp only [v6ToBytes]
        rw [if_neg hm, hbr]
      rw [hv]
      intro hmem
      rcases List.mem_append.mp hmem with h1 | h2
      · rcases mem_joinSep _ _ h1 with ⟨t, ht, hbt⟩ | hs
        · rw [List.mem_map] at ht
          obtain ⟨g, _, rfl⟩ := ht
          exact (hexToBytes_not_mem g).2.1 hbt
        · exact absurd hs (by decide)
      · rcases List.mem_cons.mp h2 with h | h
        · exact absurd h (by decide)
        rcases List.mem_cons.mp h with h | h
        · exact absurd h (by decide)
        rcases mem_joinSep _ _ h with ⟨t, ht, hbt⟩ | hs
        · rw [List.mem_map] at ht
          obtain ⟨g, _, rfl⟩ := ht
          exact (hexToBytes_not_mem g).2.1 hbt
        · exact absurd hs (by decide)

theorem parseIpv6_lt {s : List Nat} {x : Nat} (h : parseIpv6 s = some x) :
    x < 2 ^ 128 := by
  cases hdc : findDC s with
  | some q =>
    obtain ⟨l, r⟩ := q
    rw [parseIpv6_of_findDC hdc] at h
    cases hlg : parseV6Groups false (if l.isEmpty then [] else splitSepB colonB l) with
    | none =>
      rw [hlg] at h
      cases hrg : parseV6Groups true (if r.isEmpty then [] else splitSepB colonB r) with
      | none =>
        rw [hrg] at h
        replace h : (none : Option Nat) = some x := h
        cases h
      | some rg =>
        rw [hrg] at h
        replace h : (none : Option Nat) = some x := h
        cases h
    | some lg =>
      rw [hlg] at h
      cases hrg : parseV6Groups true (if r.isEmpty then [] else splitSepB colonB r) with
      | none =>
        rw [hrg] at h
        replace h : (none : Option Nat) = some x := h
        cases h
      | some rg =>
        rw [hrg] at h
        replace h : (if lg.length + rg.length ≤ 7 then
            some (segsToNat (lg ++ List.replicate (8 - lg.length - rg.length) 0 ++ rg))
          else none) = some x := h
        by_cases hle : lg.length + rg.length ≤ 7
        · rw [if_pos hle] at h
          injection h with h'
          rw [← h']
          apply segsToNat_lt
          · simp only [List.length_append, List.length_replicate]
            omega
          · intro g hg
            rcases List.mem_append.mp hg with hg1 | hg2
            · rcases List.mem_append.mp hg1 with hg3 | hg4
              · exact parseV6Groups_bound false _ lg hlg g hg3
              · rw [List.eq_of_mem_replicate hg4]
                omega
            · exact parseV6Groups_bound true _ rg hrg g hg2
        · rw [if_neg hle] at h
          cases h
  | none =>
    rw [parseIpv6_of_findDC_none hdc] at h
    cases hg : parseV6Groups true (splitSepB colonB s) with
    | none =>
      rw [hg] at h
      replace h : (none : Option Nat) = some x := h
      cases h
    | some gs =>
      rw [hg] at h
      replace h : (if gs.length = 8 then some (segsToNat gs) else none) = some x := h
      by_cases hlen : gs.length = 8
      · rw [if_pos hlen] at h
        injection h with h'
        rw [← h']
        exact segsToNat_lt hlen (parseV6Groups_bound true _ gs hg)
      · rw [if_neg hlen] at h
        cases h

theorem ipNetFromStr_v4_display {a p : Nat} (ha : a < 2 ^ 32) (hp : p ≤ 32) :
    ipNetFromStr (v4ToBytes a ++ slashB :: decToBytes p) = some (Net.v4 a p) := by
  have hsplit := splitOnceB_append slashB (v4ToBytes a) (decToBytes p)
    (slashB_not_mem_v4ToBytes a)
  have h1 : ipNetFromStr (v4ToBytes a ++ slashB :: decToBytes p) =
      (match parseIpv4 (v4ToBytes a), parsePrefixLen (decToBytes p) with
        | some addr, some pl => if pl ≤ 32 then some (Net.v4 addr pl) else none
        | _, _ =>
          match parseIpv6 (v4ToBytes a), parsePrefixLen (decToBytes p) with
          | some addr, some pl => if pl ≤ 128 then some (Net.v6 addr pl) else none
          | _, _ => none) := by
    unfold ipNetFromStr
    rw [hsplit]
  rw [parseIpv4_v4ToBytes ha, parsePrefixLen_decToBytes (by omega)] at h1
  rw [h1]
  show (if p ≤ 32 then some (Net.v4 a p) else none) = some (Net.v4 a p)
  rw [if_pos hp]

theorem ipNetFromStr_v6_display {a p : Nat} (ha : a < 2 ^ 128) (hp : p ≤ 128) :
    ipNetFromStr (v6ToBytes a ++ slashB :: decToBytes p) = some (Net.v6 a p) := by
  have hsplit := splitOnceB_append slashB (v6ToBytes a) (decToBytes p)
    (slashB_not_mem_v6ToBytes a)
  have h1 : ipNetFromStr (v6ToBytes a ++ slashB :: decToBytes p) =
      (match parseIpv4 (v6ToBytes a), parsePrefixLen (decToBytes p) with
        | some addr, some pl => if pl ≤ 32 then some (Net.v4 addr pl) else none
        | _, _ =>
          match parseIpv6 (v6ToBytes a), parsePrefixLen (decToBytes p) with
          | some addr, some pl => if pl ≤ 128 then some (Net.v6 addr pl) else none
          | _, _ => none) := by
    unfold ipNetFromStr
    rw [hsplit]
  rw [parseIpv4_none_of_colon (colonB_mem_v6ToBytes a),
    parsePrefixLen_decToBytes (by omega), parseIpv6_v6ToBytes ha] at h1
  rw [h1]
  show (if p ≤ 128 then some (Net.v6 a p) else none) = some (Net.v6 a p)
  rw [if_pos hp]

theorem netTryFrom_v4_display {a p : Nat} (ha : a < 2 ^ 32) (hp : p ≤ 32) :
    netTryFrom (v4ToBytes a ++ slashB :: decToBytes p) = Except.ok (Net.v4 a p) := by
  have hsplit := splitOnceB_append slashB (v4ToBytes a) (decToBytes p)
    (slashB_not_mem_v4ToBytes a)
  have h0 : netTryFrom (v4ToBytes a ++ slashB :: decToBytes p) =
      (if (decToBytes p).all isDigitB then
        match ipNetFromStr (v4ToBytes a ++ slashB :: decToBytes p) with
        | some n => Except.ok n
        | none => Except.error (NetErr.notAnIp (v4ToBytes a ++ slashB :: decToBytes p))
      else
        match parseIpv4 (v4ToBytes a), parseIpv4 (decToBytes p) with
        | some ip, some mask =>
          match maskToPfx 32 mask with
          | some q => Except.ok (Net.v4 ip q)
          | none => Except.error (NetErr.notAnIp (v4ToBytes a ++ slashB :: decToBytes p))
        | _, _ => Except.error (NetErr.notAnIp (v4ToBytes a ++ slashB :: decToBytes p))) := by
    unfold netTryFrom
    rw [hsplit]
  rw [h0, if_pos (decToBytes_digits p), ipNetFromStr_v4_display ha hp]

theorem netTryFrom_v6_display {a p : Nat} (ha : a < 2 ^ 128) (hp : p ≤ 128) :
    netTryFrom (v6ToBytes a ++ slashB :: decToBytes p) = Except.ok (Net.v6 a p) := by
  have hsplit := splitOnceB_append slashB (v6ToBytes a) (decToBytes p)
    (slashB_not_mem_v6ToBytes a)
  have h0 : netTryFrom (v6ToBytes a ++ slashB :: decToBytes p) =
      (if (decToBytes p).all isDigitB then
        match ipNetFromStr (v6ToBytes a ++ slashB :: decToBytes p) with
        | some n => Except.ok n
        | none => Except.error (NetErr.notAnIp (v6ToBytes a ++ slashB :: decToBytes p))
      else
        match parseIpv4 (v6ToBytes a), parseIpv4 (decToBytes p) with
        | some ip, some mask =>
          match maskToPfx 32 mask with
          | some q => Except.ok (Net.v4 ip q)
          | none => Except.error (NetErr.notAnIp (v6ToBytes a ++ slashB :: decToBytes p))
        | _, _ => Except.error (NetErr.notAnIp (v6ToBytes a ++ slashB :: decToBytes p))) := by
    unfold netTryFrom
    rw [hsplit]
  rw [h0, if_pos (decToBytes_digits p), ipNetFromStr_v6_display ha hp]

theorem ipNetFromStr_bounds {s : List Nat} {v : Net} (h : ipNetFromStr s = some v) :
    (∃ a p, v = Net.v4 a p ∧ a < 2 ^ 32 ∧ p ≤ 32) ∨
    (∃ a p, v = Net.v6 a p ∧ a < 2 ^ 128 ∧ p ≤ 128) := by
  cases hsp : splitOnceB slashB s with
  | none =>
    unfold ipNetFromStr at h
    rw [hsp] at h
    replace h : (none : Option Net) = some v := h
    cases h
  | some q =>
    obtain ⟨ap, pp⟩ := q
    have h1 : ipNetFromStr s =
        (match parseIpv4 ap, parsePrefixLen pp with
          | some addr, some pl => if pl ≤ 32 then some (Net.v4 addr pl) else none
          | _, _ =>
            match parseIpv6 ap, parsePrefixLen pp with
            | some addr, some pl => if pl ≤ 128 then some (Net.v6 addr pl) else none
            | _, _ => none) := by
      unfold ipNetFromStr
      rw [hsp]
    rw [h1] at h
    cases hpl : parsePrefixLen pp with
    | none =>
      rw [hpl] at h
      cases h4 : parseIpv4 ap with
      | some addr =>
        rw [h4] at h
        cases h6 : parseIpv6 ap with
        | some a6 =>
          rw [h6] at h
          replace h : (none : Option Net) = some v := h
          cases h
        | none =>
          rw [h6] at h
          replace h : (none : Option Net) = some v := h
          cases h
      | none =>
        rw [h4] at h
        cases h6 : parseIpv6 ap with
        | some a6 =>
          rw [h6] at h
          replace h : (none : Option Net) = some v := h
          cases h
        | none =>
          rw [h6] at h
          replace h : (none : Option Net) = some v := h
          cases h
    | some pl =>
      rw [hpl] at h
      cases h4 : parseIpv4 ap with
      | some addr =>
        rw [h4] at h
        replace h : (if pl ≤ 32 then some (Net.v4 addr pl) else none) = some v := h
        by_cases hle : pl ≤ 32
        · rw [if_pos hle] at h
          injection h with h'
          exact Or.inl ⟨addr, pl, h'.symm, parseIpv4_lt h4, hle⟩
        · rw [if_neg hle] at h
          cases h
      | none =>
        rw [h4] at h
        cases h6 : parseIpv6 ap with
        | some a6 =>
          rw [h6] at h
          replace h : (if pl ≤ 128 then some (Net.v6 a6 pl) else none) = some v := h
          by_cases hle : pl ≤ 128
          · rw [if_pos hle] at h
            injection h with h'
            exact Or.inr ⟨a6, pl, h'.symm, parseIpv6_lt h6, hle⟩
          · rw [if_neg hle] at h
            cases h
        | none =>
          rw [h6] at h
          replace h : (none : Option Net) = some v := h
          cases h

theorem netTryFrom_ok_bounds {s : List Nat} {v : Net} (h : netTryFrom s = Except.ok v) :
    (∃ a p, v = Net.v4 a p ∧ a < 2 ^ 32 ∧ p ≤ 32) ∨
    (∃ a p, v = Net.v6 a p ∧ a < 2 ^ 128 ∧ p ≤ 128) := by
  cases hsp : splitOnceB slashB s with
  | none =>
    have h0 : netTryFrom s =
        (match parseIpAddr s with
          | some (.v4 a) => Except.ok (Net.v4 a 32)
          | some (.v6 a) => Except.ok (Net.v6 a 128)
          | none => Except.error (NetErr.notAnIp s)) := by
      unfold netTryFrom
      rw [hsp]
    rw [h0] at h
    cases hip : parseIpAddr s with
    | none =>
      rw [hip] at h
      replace h : (Except.error (NetErr.notAnIp s) : Except NetErr Net) = Except.ok v := h
      cases h
    | some ip =>
      rw [hip] at h
      cases ip with
      | v4 x =>
        replace h : (Except.ok (Net.v4 x 32) : Except NetErr Net) = Except.ok v := h
        injection h with h'
        left
        refine ⟨x, 32, h'.symm, ?_, by omega⟩
        unfold parseIpAddr at hip
        cases h4 : parseIpv4 s with
        | some y =>
          rw [h4] at hip
          replace hip : (some (IpVal.v4 y) : Option IpVal) = some (IpVal.v4 x) := hip
          injection hip with hip'
          injection hip' with hip''
          exact hip'' ▸ parseIpv4_lt h4
        | none =>
          rw [h4] at hip
          cases h6 : parseIpv6 s with
          | none =>
            rw [h6] at hip
            replace hip : (none : Option IpVal) = some (IpVal.v4 x) := hip
            cases hip
          | some z =>
            rw [h6] at hip
            replace hip : (some (IpVal.v6 z) : Option IpVal) = some (IpVal.v4 x) := hip
            injection hip with hip'
            injection hip'
      | v6 x =>
        replace h : (Except.ok (Net.v6 x 128) : Except NetErr Net) = Except.ok v := h
        injection h with h'
        right
        refine ⟨x, 128, h'.symm, ?_, by omega⟩
        unfold parseIpAddr at hip
        cases h4 : parseIpv4 s with
        | some y =>
          rw [h4] at hip
          replace hip : (some (IpVal.v4 y) : Option IpVal) = some (IpVal.v6 x) := hip
          injection hip with hip'
          injection hip'
        | none =>
          rw [h4] at hip
          cases h6 : parseIpv6 s with
          | none =>
            rw [h6] at hip
            replace hip : (none : Option IpVal) = some (IpVal.v6 x) := hip
            cases hip
          | some z =>
            rw [h6] at hip
            replace hip : (some (IpVal.v6 z) : Option IpVal) = some (IpVal.v6 x) := hip
            injection hip with hip'
            injection hip' with hip''
            exact hip'' ▸ parseIpv6_lt h6
  | some q =>
    obtain ⟨ipPart, maskPart⟩ := q
    have h0 : netTryFrom s =
        (if maskPart.all isDigitB then
          match ipNetFromStr s with
          | some n => Except.ok n
          | none => Except.error (NetErr.notAnIp s)
        else
          match parseIpv4 ipPart, parseIpv4 maskPart with
          | some ip, some mask =>
            match maskToPfx 32 mask with
            | some p => Except.ok (Net.v4 ip p)
            | none => Except.error (NetErr.notAnIp s)
          | _, _ => Except.error (NetErr.notAnIp s)) := by
      unfold netTryFrom
      rw [hsp]
    rw [h0] at h
    by_cases hd : maskPart.all isDigitB = true
    · rw [if_pos hd] at h
      cases hin : ipNetFromStr s with
      | none =>
        rw [hin] at h
        replace h : (Except.error (NetErr.notAnIp s) : Except NetErr Net) = Except.ok v := h
        cases h
      | some n =>
        rw [hin] at h
        replace h : (Except.ok n : Except NetErr Net) = Except.ok v := h
        injection h with h'
        exact h' ▸ ipNetFromStr_bounds hin
    · rw [if_neg hd] at h
      cases h4 : parseIpv4 ipPart with
      | none =>
        rw [h4] at h
        cases h5 : parseIpv4 maskPart with
        | none =>
          rw [h5] at h
          replace h : (Except.error (NetErr.notAnIp s) : Except NetErr Net) = Except.ok v := h
          cases h
        | some mask =>
          rw [h5] at h
          replace h : (Except.error (NetErr.notAnIp s) : Except NetErr Net) = Except.ok v := h
          cases h
      | some ip =>
        rw [h4] at h
        cases h5 : parseIpv4 maskPart with
        | none =>
          rw [h5] at h
          replace h : (Except.error (NetErr.notAnIp s) : Except NetErr Net) = Except.ok v := h
          cases h
        | some mask =>
          rw [h5] at h
          replace h : (match maskToPfx 32 mask with
            | some p => Except.ok (Net.v4 ip p)
            | none => Except.error (NetErr.notAnIp s)) = Except.ok v := h
          cases h6 : maskToPfx 32 mask with
          | none =>
            rw [h6] at h
            replace h : (Except.error (NetErr.notAnIp s) : Except NetErr Net) = Except.ok v := h
            cases h
          | some pfx =>
            rw [h6] at h
            replace h : (Except.ok (Net.v4 ip pfx) : Except NetErr Net) = Except.ok v := h
            injection h with h'
            left
            refine ⟨ip, pfx, h'.symm, parseIpv4_lt h4, ?_⟩
            unfold maskToPfx at h6
            have hmem := List.mem_of_find?_eq_some h6
            have := List.mem_range.mp hmem
            omega

/-- C6: every byte string that `Net::try_from` accepts into a value `v`
round-trips through the display: rendering `v` and parsing the rendered text
again succeeds, and the re-parsed value compares `Equals`-true with `v`
(same family, address bits, and prefix length), even when the rendered text
differs from the input (a dotted-mask input re-renders as a numeric prefix
length). -/
theorem c6_display_roundtrip (s : List Nat) (v : Net)
    (h : netTryFrom s = Except.ok v) :
    ∃ w, netTryFrom (netDisplay v) = Except.ok w ∧
      MatchMode.matches MatchMode.equals w v = some true := by
  refine ⟨v, ?_, ?_⟩
  · rcases netTryFrom_ok_bounds h with ⟨a, p, rfl, ha, hp⟩ | ⟨a, p, rfl, ha, hp⟩
    · exact netTryFrom_v4_display ha hp
    · exact netTryFrom_v6_display ha hp
  · simp [MatchMode.matches]

/-- Witness for C6 at the spec's own example: `10.0.0.0/255.255.254.0`
parses to the value `10.0.0.0/23`, which round-trips. -/
theorem c6_witness :
    netTryFrom (bytesOf ['1', '0', '.', '0', '.', '0', '.', '0', '/',
        '2', '5', '5', '.', '2', '5', '5', '.', '2', '5', '4', '.', '0'])
      = Except.ok (Net.v4 167772160 23) ∧
    ∃ w, netTryFrom (netDisplay (Net.v4 167772160 23)) = Except.ok w ∧
      MatchMode.matches MatchMode.equals w (Net.v4 167772160 23) = some true :=
  ⟨by decide, c6_display_roundtrip
    (bytesOf ['1', '0', '.', '0', '.', '0', '.', '0', '/',
      '2', '5', '5', '.', '2', '5', '5', '.', '2', '5', '4', '.', '0'])
    (Net.v4 167772160 23) (by decide)⟩
